import Mathlib

/-!
# addr_server.c : connection table, event queue and lookup protocol

A shallow embedding of `src/addr_server.c`.  The C globals are grouped in
three records: `Server` (the connection table, its counter and the static
input buffer), `QueueState` (the event queue and its free pool) and `World`
(both, plus the listening descriptor).  System calls and the resolver are
oracles: every handler call receives an `Outcome` that says what `accept`,
`read`, `close` and the resolver answer during that call.  Everything the
program does to the outside (writes, closes, messages on stderr, lookups) is
appended to a trace.

Undefined behaviour of the C program (dereferencing `NULL`, reading or
writing beyond an array) is modelled by the result `none`.  The parser loop
is also given step by step (`parse_step`, `parse_steps`), with an outcome
that tells a normal end from undefined behaviour and from an exhausted
iteration bound.  The exits of `main` and `init_conn_sock` before the loop
are modelled by `main_startup`.

The header `addr_server.h` is not part of the sources.  Its constants are
parameters (`Params`); `MAX_CONNS` is the length of the `all_conns` array.
-/

namespace AddrServer

/-! ## Data model -/

/-- The two connection states of `addr_server.h`. -/
inductive ConnState
  | CLOSED
  | OPEN
  deriving DecidableEq, Repr

/-- The two event kinds of `addr_server.h`. -/
inductive EventType
  | NEW_CONN
  | CONN
  deriving DecidableEq, Repr

/-- An IPv4 address as its four octets in network order (`struct in_addr`). -/
structure InAddr where
  a : Nat
  b : Nat
  c : Nat
  d : Nat
  deriving DecidableEq, Repr

/-- One slot of `all_conns`.  `sname` is a C string without its final NUL;
the array holds `SNAME_LEN` bytes. -/
structure connection where
  fd : Int
  state : ConnState
  addr : InAddr
  sname : List Char
  deriving DecidableEq, Repr

/-- What the program does to the outside world. -/
inductive Effect
  | write (fd : Int) (data : List Char)
  | close (fd : Int)
  | report (msg : String) (args : List Int)
  | gethostbyname (name : List Char)
  | gethostbyaddr (addr : InAddr)
  deriving DecidableEq, Repr

/-- Constants of the missing header `addr_server.h` (`SNAME_LEN` is the
declared length of the `sname` array of a slot), and two properties of the
machine: the byte order (the message tag is copied with `memcpy` into an
`int`) and the size in bytes of a `long` (`name_by_ip` keeps the result of
`inet_addr` in a `long`). -/
structure Params where
  MAX_EVENTS_TO_PROCESS : Nat
  NAMEBYIP : Int
  IPBYNAME : Int
  big_endian : Bool
  SNAME_LEN : Nat
  SIZEOF_LONG : Nat

/-- The globals used by the connection handlers: `all_conns`, `total_conns`,
the static `buf` of `conn_data_handler`, and the trace of effects. -/
structure Server where
  all_conns : List connection
  total_conns : Int
  buf : List Char
  trace : List Effect
  deriving DecidableEq, Repr

/-- Result of `read(fd, buf, IN_BUF_SIZE)`: `-1` with `EWOULDBLOCK`, `-1`
with another errno, or the bytes received (none at end of file). -/
inductive ReadResult
  | would_block
  | failed
  | bytes (data : List Char)

/-- The name service.  `gethostbyname` and `gethostbyaddr` answer with a host
entry or with `NULL` (`none`); `gethostbyaddr` is the call with an address of
four bytes, and `gethostbyaddr_sized len` is the call with another length
(`name_by_ip` passes `sizeof(long)`).  `inet_addr` parses an address text:
`none` is the error value `INADDR_NONE`, all 32 bits set. -/
structure Resolver where
  gethostbyname : List Char → Option InAddr
  gethostbyaddr : InAddr → Option (List Char)
  inet_addr : List Char → Option InAddr
  gethostbyaddr_sized : Nat → InAddr → Option (List Char)

/-- What the operating system and the resolver answer during one handler
call: the descriptor returned by `accept` (`-1` on failure) and the peer
address it fills in, whether `close` succeeds, the result of `read`, and the
resolver. -/
structure Outcome where
  new_fd : Int
  client : InAddr
  close_ok : Bool
  rd : ReadResult
  dns : Resolver

def IN_BUF_SIZE : Nat := 80

def OUT_BUF_SIZE : Nat := 80

/-- The C `sizeof(int)`: the four-byte message tag. -/
def SIZEOF_INT : Nat := 4

def NUL : Char := Char.ofNat 0

/-- The capacity of the table: the declared length of `all_conns`. -/
def MAX_CONNS (s : Server) : Nat := s.all_conns.length

def Server.emit (s : Server) (e : Effect) : Server :=
  { s with trace := s.trace ++ [e] }

/-! ## Connection table -/

/-- The table after `init_conns`: every slot has `fd = -1`, state `CLOSED`
and an empty name. -/
def init_conns (n : Nat) : List connection :=
  List.replicate n { fd := -1, state := ConnState.CLOSED, addr := ⟨0, 0, 0, 0⟩, sname := [] }

/-- The initial globals: initialised table, `total_conns = 0`, zeroed static
buffer. -/
def init_server (n : Nat) : Server :=
  { all_conns := init_conns n, total_conns := 0,
    buf := List.replicate IN_BUF_SIZE NUL, trace := [] }

/-- The globals when `main` starts.  `main` does not call `init_conns`: the
statics are zeroed, so every slot has `fd = 0`, an empty name and the state
whose value is 0, taken to be `CLOSED`. -/
def static_server (n : Nat) : Server :=
  { all_conns :=
      List.replicate n
        { fd := 0, state := ConnState.CLOSED, addr := ⟨0, 0, 0, 0⟩, sname := [] },
    total_conns := 0, buf := List.replicate IN_BUF_SIZE NUL, trace := [] }

/-- The loop `for (i = 0; i < MAX_CONNS; i++) if (p(all_conns[i])) return i;`
shared by `index_by_fd` and `new_conn_handler`. -/
def find_slot (p : connection → Bool) : List connection → Option Nat
  | [] => none
  | c :: cs => if p c then some 0 else (find_slot p cs).map (· + 1)

/-- The function `index_by_fd`: index of the first OPEN slot that holds
`fd`, or `-1`. -/
def index_by_fd (s : Server) (fd : Int) : Int :=
  match find_slot (fun c => decide (c.state = ConnState.OPEN) && decide (c.fd = fd)) s.all_conns with
  | some i => (i : Int)
  | none => -1

/-- The function `terminate`.  `close_ok` tells whether `close` succeeds. -/
def terminate (conn_index : Int) (close_ok : Bool) (s : Server) : Server :=
  if conn_index < 0 ∨ conn_index ≥ (MAX_CONNS s : Int) then
    s.emit (Effect.report "terminate: conn_index %d out of range.\n" [conn_index])
  else
    match s.all_conns[conn_index.toNat]? with
    | none => s
    | some c =>
      if c.state = ConnState.CLOSED then
        s.emit (Effect.report "terminate: connection %d already closed.\n" [conn_index])
      else
        let s1 := s.emit (Effect.close c.fd)
        if close_ok then
          { s1 with
            all_conns := s1.all_conns.set conn_index.toNat { c with state := ConnState.CLOSED },
            total_conns := s1.total_conns - 1 }
        else
          s1.emit (Effect.report "terminate: close" [])

def no_slots_message : List Char :=
  "no available slots -- closing connection.\n".toList

/-- The function `new_conn_handler`.  The result is `none` when the program
dereferences the `NULL` returned by a failed `gethostbyaddr`, and when
`strcpy` writes the peer name and its NUL beyond the `SNAME_LEN` bytes of
`sname`. -/
def new_conn_handler (P : Params) (o : Outcome) (s : Server) : Option Server :=
  if o.new_fd = -1 then
    some (s.emit (Effect.report "new_conn_handler: accept" []))
  else if s.total_conns ≥ (MAX_CONNS s : Int) then
    let s1 := s.emit (Effect.report "new_conn_handler: no available connection slots.\n" [])
    let s2 := s1.emit (Effect.write o.new_fd no_slots_message)
    let s3 := s2.emit (Effect.close o.new_fd)
    if o.close_ok then some s3
    else some (s3.emit (Effect.report "new_conn_handler: close" []))
  else
    let s1 := s.emit (Effect.gethostbyaddr o.client)
    match find_slot (fun c => decide (c.state = ConnState.CLOSED)) s1.all_conns with
    | some conn_index =>
      match o.dns.gethostbyaddr o.client with
      | none => none
      | some h_name =>
        if h_name.length + 1 ≤ P.SNAME_LEN then
          some { s1 with
            all_conns := s1.all_conns.set conn_index
              { fd := o.new_fd, state := ConnState.OPEN, addr := o.client, sname := h_name },
            total_conns := s1.total_conns + 1 }
        else none
    | none => some (s1.emit (Effect.report "new_conn_handler: sanity check failed!\n" []))

/-! ## Protocol handler -/

/-- The C string that starts at offset `off` of the array `mem`, without its
NUL; `none` when no NUL follows inside the array (`strlen` would run off its
end). -/
def cstr (mem : List Char) (off : Nat) : Option (List Char) :=
  if NUL ∈ mem.drop off then some ((mem.drop off).takeWhile (fun c => c != NUL)) else none

/-- The `int` stored in four bytes, two's complement. -/
def int_of_bytes (big_endian : Bool) (bs : List Char) : Int :=
  let ordered := if big_endian then bs.reverse else bs
  let u : Nat := ordered.foldr (fun c acc => c.toNat % 256 + 256 * acc) 0
  if u < 2 ^ 31 then (u : Int) else (u : Int) - 2 ^ 32

/-- The statement `memcpy(&msgtype, &buf[buf_index], sizeof(int))`; `none`
when the four bytes do not lie inside the array. -/
def read_int (P : Params) (mem : List Char) (off : Nat) : Option Int :=
  if off + SIZEOF_INT ≤ mem.length then
    some (int_of_bytes P.big_endian ((mem.drop off).take SIZEOF_INT))
  else none

/-- The library function `inet_ntoa`: dotted decimal form. -/
def inet_ntoa (x : InAddr) : List Char :=
  Nat.toDigits 10 (x.a % 256) ++ ['.'] ++ Nat.toDigits 10 (x.b % 256) ++ ['.'] ++
    Nat.toDigits 10 (x.c % 256) ++ ['.'] ++ Nat.toDigits 10 (x.d % 256)

/-- The pair `sprintf(out_buf, ...)`, `write(all_conns[conn_index].fd,
out_buf, strlen(out_buf))`: `none` when the line and its NUL do not fit in
the static `out_buf`, or when `conn_index` is not a slot. -/
def respond (conn_index : Nat) (line : List Char) (s : Server) : Option Server :=
  if line.length + 1 ≤ OUT_BUF_SIZE then
    match s.all_conns[conn_index]? with
    | some c => some (s.emit (Effect.write c.fd line))
    | none => none
  else none

/-- The function `ip_by_name`, called with `&buf[off]`.  Returns the number
of bytes consumed and the new globals. -/
def ip_by_name (R : Resolver) (conn_index : Nat) (off : Nat) (s : Server) :
    Option (Nat × Server) :=
  match cstr s.buf (off + SIZEOF_INT) with
  | none => none
  | some name =>
    let s1 := s.emit (Effect.gethostbyname name)
    let line :=
      match R.gethostbyname name with
      | none => name ++ " 0\n".toList
      | some a => name ++ [' '] ++ inet_ntoa a ++ ['\n']
    match respond conn_index line s1 with
    | none => none
    | some s2 => some (SIZEOF_INT + name.length + 1, s2)

/-- The value of the 32-bit result of `inet_addr` as an unsigned integer of
the machine. -/
def inet_addr_value (P : Params) (r : Option InAddr) : Nat :=
  match r with
  | none => 2 ^ 32 - 1
  | some x =>
    if P.big_endian then
      (x.a % 256) * 2 ^ 24 + (x.b % 256) * 2 ^ 16 + (x.c % 256) * 2 ^ 8 + x.d % 256
    else
      x.a % 256 + (x.b % 256) * 2 ^ 8 + (x.c % 256) * 2 ^ 16 + (x.d % 256) * 2 ^ 24

/-- The conversion of a 32-bit unsigned value to `long`: two's complement
when a `long` has four bytes, unchanged when it is wider. -/
def long_of_uint32 (P : Params) (v : Nat) : Int :=
  if P.SIZEOF_LONG * 8 ≤ 32 then
    if v < 2 ^ 31 then (v : Int) else (v : Int) - 2 ^ 32
  else (v : Int)

/-- The value of `addr` after `addr = inet_addr(text)`, with `long addr`. -/
def inet_addr_long (P : Params) (R : Resolver) (text : List Char) : Int :=
  long_of_uint32 P (inet_addr_value P (R.inet_addr text))

/-- The internet address stored at `&addr`. -/
def addr_query (R : Resolver) (text : List Char) : InAddr :=
  match R.inet_addr text with
  | some x => x
  | none => ⟨255, 255, 255, 255⟩

/-- The call `gethostbyaddr((char *)&addr, sizeof(addr), AF_INET)` of
`name_by_ip`, with `long addr`. -/
def gethostbyaddr_long (P : Params) (R : Resolver) (x : InAddr) : Option (List Char) :=
  if P.SIZEOF_LONG = 4 then R.gethostbyaddr x else R.gethostbyaddr_sized P.SIZEOF_LONG x

/-- The function `name_by_ip`, called with `&buf[off]`. -/
def name_by_ip (P : Params) (R : Resolver) (conn_index : Nat) (off : Nat) (s : Server) :
    Option (Nat × Server) :=
  match cstr s.buf (off + SIZEOF_INT) with
  | none => none
  | some text =>
    if inet_addr_long P R text = -1 then some (SIZEOF_INT + text.length + 1, s)
    else
      let s1 := s.emit (Effect.gethostbyaddr (addr_query R text))
      let line :=
        match gethostbyaddr_long P R (addr_query R text) with
        | some h_name => text ++ [' '] ++ h_name ++ ['\n']
        | none => text ++ " 0\n".toList
      match respond conn_index line s1 with
      | none => none
      | some s2 => some (SIZEOF_INT + text.length + 1, s2)

/-- The loop `while (buf_index < num_bytes)` of `conn_data_handler`.  The
first argument bounds the number of iterations; the result is `none` when
the bound is exhausted or an iteration has undefined behaviour. -/
def parse_loop (P : Params) (R : Resolver) (conn_index : Nat) (num_bytes : Nat) :
    Nat → Nat → Server → Option Server
  | 0, buf_index, s => if buf_index < num_bytes then none else some s
  | fuel + 1, buf_index, s =>
    if buf_index < num_bytes then
      match read_int P s.buf buf_index with
      | none => none
      | some msgtype =>
        if msgtype = P.NAMEBYIP then
          match name_by_ip P R conn_index buf_index s with
          | none => none
          | some (n, s1) => parse_loop P R conn_index num_bytes fuel (buf_index + n) s1
        else if msgtype = P.IPBYNAME then
          match ip_by_name R conn_index buf_index s with
          | none => none
          | some (n, s1) => parse_loop P R conn_index num_bytes fuel (buf_index + n) s1
        else
          parse_loop P R conn_index num_bytes fuel (buf_index + 1)
            (s.emit (Effect.report "conn_data_handler: unknown message type %d\n" [msgtype]))
    else some s

/-- The function `conn_data_handler`. -/
def conn_data_handler (P : Params) (fd : Int) (o : Outcome) (s : Server) : Option Server :=
  let conn_index := index_by_fd s fd
  if conn_index = -1 then
    some (s.emit (Effect.report "conn_data_handler: invalid fd.\n" []))
  else
    match o.rd with
    | ReadResult.would_block => some s
    | ReadResult.failed =>
      some (terminate conn_index o.close_ok (s.emit (Effect.report "conn_data_handler: read" [])))
    | ReadResult.bytes data =>
      let received := data.take IN_BUF_SIZE
      let num_bytes := received.length
      let s1 := { s with buf := received ++ s.buf.drop num_bytes }
      if num_bytes = 0 then
        let s2 :=
          match s1.all_conns[conn_index.toNat]? with
          | some c =>
            if c.state = ConnState.CLOSED then
              s1.emit (Effect.report "get_user_data: tried to read from closed fd.\n" [])
            else s1
          | none => s1
        some (terminate conn_index o.close_ok s2)
      else
        parse_loop P (o.dns) conn_index.toNat num_bytes num_bytes 0 s1

/-! ## Event queue -/

/-- One node of the event queue.  `next` is the address of the next node,
`none` for `NULL`. -/
structure queue_element where
  event_type : EventType
  fd : Int
  next : Option Nat
  deriving DecidableEq, Repr

/-- The queue globals.  `heap` holds the nodes obtained from `malloc` so
far, in allocation order: the address of a node is its position, so the
length of `heap` is the number of allocations.  `malloc` is assumed to
succeed.  `log` collects the messages printed on stderr. -/
structure QueueState where
  heap : List queue_element
  queue_head : Option Nat
  queue_tail : Option Nat
  stack_head : Option Nat
  queue_length : Int
  log : List String
  deriving DecidableEq, Repr

def init_queue : QueueState :=
  { heap := [], queue_head := none, queue_tail := none, stack_head := none,
    queue_length := 0, log := [] }

/-- The contents of freshly allocated memory (overwritten before use). -/
def fresh_node : queue_element :=
  { event_type := EventType.NEW_CONN, fd := 0, next := none }

/-- The function `pop_queue_element`: the address handed out and the new
globals.  The second branch is the `malloc` branch. -/
def pop_queue_element (s : QueueState) : Option (Nat × QueueState) :=
  match s.stack_head with
  | some a =>
    match s.heap[a]? with
    | none => none
    | some e => some (a, { s with stack_head := e.next, queue_length := s.queue_length + 1 })
  | none =>
    some (s.heap.length,
      { s with heap := s.heap ++ [fresh_node], queue_length := s.queue_length + 1 })

/-- The function `push_queue_element`. -/
def push_queue_element (a : Nat) (s : QueueState) : Option QueueState :=
  match s.heap[a]? with
  | none => none
  | some e =>
    some { s with
      heap := s.heap.set a { e with next := s.stack_head },
      stack_head := some a,
      queue_length := s.queue_length - 1 }

/-- The function `enqueue_datapending`. -/
def enqueue_datapending (fd : Int) (fd_type : EventType) (s : QueueState) : Option QueueState :=
  match pop_queue_element s with
  | none => none
  | some (a, s1) =>
    match s1.heap[a]? with
    | none => none
    | some _ =>
      let heap1 := s1.heap.set a { event_type := fd_type, fd := fd, next := none }
      match s1.queue_head with
      | some _ =>
        match s1.queue_tail with
        | none => none
        | some t =>
          match heap1[t]? with
          | none => none
          | some e =>
            some { s1 with heap := heap1.set t { e with next := some a }, queue_tail := some a }
      | none => some { s1 with heap := heap1, queue_head := some a, queue_tail := some a }

/-- The function `dequeue_top_event`. -/
def dequeue_top_event (s : QueueState) : Option QueueState :=
  match s.queue_head with
  | some a =>
    match s.heap[a]? with
    | none => none
    | some e => push_queue_element a { s with queue_head := e.next }
  | none =>
    some { s with log := s.log ++ ["dequeue_top_event: tried to dequeue from empty queue!\n"] }

/-- The event stored in the node at `queue_head` (`queue_head->event_type`
and `queue_head->fd`), `none` when the queue is empty. -/
def queue_top (s : QueueState) : Option (EventType × Int) :=
  match s.queue_head with
  | none => none
  | some a => (s.heap[a]?).map (fun e => (e.event_type, e.fd))

/-- The nodes met when following `next` from address `p`, at most `fuel` of
them. -/
def walk (heap : List queue_element) : Nat → Option Nat → List Nat
  | 0, _ => []
  | _ + 1, none => []
  | fuel + 1, some a =>
    match heap[a]? with
    | none => []
    | some e => a :: walk heap fuel e.next

/-- The nodes of the live queue, from `queue_head`. -/
def live_nodes (s : QueueState) : List Nat := walk s.heap s.heap.length s.queue_head

/-- The nodes of the free pool, from `stack_head`. -/
def free_nodes (s : QueueState) : List Nat := walk s.heap s.heap.length s.stack_head

/-- The number of events in the live queue. -/
def live_count (s : QueueState) : Nat := (live_nodes s).length

/-- The number of `malloc` calls made so far. -/
def allocations (s : QueueState) : Nat := s.heap.length

/-- A queue operation: `enqueue_datapending(fd, fd_type)` or
`dequeue_top_event()`. -/
inductive QueueOp
  | enq (fd : Int) (fd_type : EventType)
  | deq
  deriving DecidableEq, Repr

def queue_step : QueueOp → QueueState → Option QueueState
  | QueueOp.enq fd ty, s => enqueue_datapending fd ty s
  | QueueOp.deq, s => dequeue_top_event s

/-- Runs the operations in order. -/
def run_queue : List QueueOp → QueueState → Option QueueState
  | [], s => some s
  | op :: ops, s =>
    match queue_step op s with
    | none => none
    | some s1 => run_queue ops s1

/-- The largest number of events in the live queue over all the states a
run goes through, the first and the last included. -/
def high_water : List QueueOp → QueueState → Option Nat
  | [], s => some (live_count s)
  | op :: ops, s =>
    match queue_step op s with
    | none => none
    | some s1 => (high_water ops s1).map (fun m => max (live_count s) m)

/-- Enqueues the events in order. -/
def enqueue_all : List (EventType × Int) → QueueState → Option QueueState
  | [], s => some s
  | e :: es, s =>
    match enqueue_datapending e.2 e.1 s with
    | none => none
    | some s1 => enqueue_all es s1

/-- Dequeues `n` times and returns the events seen at `queue_head` before
each dequeue; `none` if the queue is empty at one of them. -/
def drain : Nat → QueueState → Option (List (EventType × Int))
  | 0, _ => some []
  | n + 1, s =>
    match queue_top s with
    | none => none
    | some e =>
      match dequeue_top_event s with
      | none => none
      | some s1 => (drain n s1).map (fun es => e :: es)

/-! ## Event loop -/

/-- All the globals: handler globals, queue globals and the listening
descriptor `conn_fd`. -/
structure World where
  srv : Server
  queue : QueueState
  conn_fd : Int

/-- The loop over the slots in `process_io`: one `CONN` event for every slot
whose `fd` is in the ready set. -/
def enqueue_ready (readmask : List Int) : List connection → QueueState → Option QueueState
  | [], q => some q
  | c :: cs, q =>
    if c.fd ∈ readmask then
      match enqueue_datapending c.fd EventType.CONN q with
      | none => none
      | some q1 => enqueue_ready readmask cs q1
    else enqueue_ready readmask cs q

/-- The function `process_io`.  `readmask` lists the descriptors that
`select` left in the read set; `FD_ISSET` is membership. -/
def process_io (nb : Int) (readmask : List Int) (w : World) : Option World :=
  if nb = -1 then
    some { w with srv := w.srv.emit (Effect.report "sigio_handler: select" []) }
  else if nb = 0 then some w
  else
    let q0 :=
      if w.conn_fd ∈ readmask then enqueue_datapending w.conn_fd EventType.NEW_CONN w.queue
      else some w.queue
    match q0 with
    | none => none
    | some q1 =>
      match enqueue_ready readmask w.srv.all_conns q1 with
      | none => none
      | some q2 => some { w with queue := q2 }

/-- The function `handle_top_event`: the switch on
`queue_head->event_type`; `none` when `queue_head` is `NULL` or the handler
has undefined behaviour.  (The `default` branch of the C switch cannot be
taken: an event kind is one of the two constructors.) -/
def handle_top_event (P : Params) (o : Outcome) (w : World) : Option World :=
  match w.queue.queue_head with
  | none => none
  | some a =>
    match w.queue.heap[a]? with
    | none => none
    | some e =>
      match e.event_type with
      | EventType.NEW_CONN =>
        match new_conn_handler P o w.srv with
        | none => none
        | some srv1 => some { w with srv := srv1 }
      | EventType.CONN =>
        match conn_data_handler P e.fd o w.srv with
        | none => none
        | some srv1 => some { w with srv := srv1 }

/-- The loop of `process_queue`; the first argument is
`MAX_EVENTS_TO_PROCESS - i`.  `env i` gives the outcomes of the system calls
made while the `i`-th event of the batch is handled. -/
def process_queue_loop (P : Params) (env : Nat → Outcome) : Nat → Nat → World → Option World
  | 0, _, w => some w
  | k + 1, i, w =>
    match w.queue.queue_head with
    | none => some w
    | some _ =>
      match handle_top_event P (env i) w with
      | none => none
      | some w1 =>
        match dequeue_top_event w1.queue with
        | none => none
        | some q1 => process_queue_loop P env k (i + 1) { w1 with queue := q1 }

/-- The function `process_queue`. -/
def process_queue (P : Params) (env : Nat → Outcome) (w : World) : Option World :=
  process_queue_loop P env P.MAX_EVENTS_TO_PROCESS 0 w

/-- What a batch must do to the handler globals: for the events in order,
a `NEW_CONN` event is a call of `new_conn_handler`, a `CONN` event with
descriptor `fd` is a call of `conn_data_handler(fd)`; the `j`-th call sees the
outcomes `env (i + j)`. -/
def handle_events (P : Params) (env : Nat → Outcome) :
    Nat → List (EventType × Int) → Server → Option Server
  | _, [], s => some s
  | i, (EventType.NEW_CONN, _) :: es, s =>
    (new_conn_handler P (env i) s).bind (fun s1 => handle_events P env (i + 1) es s1)
  | i, (EventType.CONN, fd) :: es, s =>
    (conn_data_handler P fd (env i) s).bind (fun s1 => handle_events P env (i + 1) es s1)

/-! ## Abstraction of the queue -/

/-- The list `l` is the chain of nodes that starts at pointer `p` and ends
with `NULL`. -/
def Chain (heap : List queue_element) : List Nat → Option Nat → Prop
  | [], p => p = none
  | a :: l, p => p = some a ∧ ∃ e, heap[a]? = some e ∧ Chain heap l e.next

/-- The event stored in the node at address `a`. -/
def payload (heap : List queue_element) (a : Nat) : Option (EventType × Int) :=
  (heap[a]?).map (fun e => (e.event_type, e.fd))

/-- The queue globals represent the live queue `q` (addresses) holding the
events `evs`, and the free pool `p`: both are chains, no node occurs twice,
`queue_tail` is the last live node, and every allocated node is in one of
the two lists. -/
structure QueueInv (s : QueueState) (q : List Nat) (evs : List (EventType × Int))
    (p : List Nat) : Prop where
  live : Chain s.heap q s.queue_head
  free : Chain s.heap p s.stack_head
  nodup : (q ++ p).Nodup
  tail : q ≠ [] → s.queue_tail = q.getLast?
  all : q.length + p.length = s.heap.length
  events : q.map (payload s.heap) = evs.map some

/-- The events held by the live queue, from `queue_head` on. -/
def queue_events (s : QueueState) : List (EventType × Int) :=
  (live_nodes s).filterMap (payload s.heap)

/-- The call `dequeue_top_event()` made `n` times. -/
def dequeue_n : Nat → QueueState → Option QueueState
  | 0, s => some s
  | n + 1, s =>
    match dequeue_top_event s with
    | none => none
    | some s1 => dequeue_n n s1

/-! ## Runs of the connection handlers -/

/-- One call of a function that changes the connection table, with the
outcomes of the system calls made during it. -/
inductive Call
  | new_conn (o : Outcome)
  | conn_data (fd : Int) (o : Outcome)
  | terminate (conn_index : Int) (close_ok : Bool)

def step (P : Params) : Call → Server → Option Server
  | Call.new_conn o, s => new_conn_handler P o s
  | Call.conn_data fd o, s => conn_data_handler P fd o s
  | Call.terminate i ok, s => some (terminate i ok s)

/-- Runs the calls in order; `none` when the program has crashed. -/
def run (P : Params) : List Call → Server → Option Server
  | [], s => some s
  | c :: cs, s =>
    match step P c s with
    | none => none
    | some s1 => run P cs s1

/-- The number of slots whose state is OPEN. -/
def open_count (s : Server) : Nat :=
  s.all_conns.countP (fun c => decide (c.state = ConnState.OPEN))

/-! ## Iterations of the parser -/

/-- One iteration of the loop `while (buf_index < num_bytes)` of
`conn_data_handler`, at cursor `buf_index`: the new cursor and the new
globals; `none` when the iteration has undefined behaviour. -/
def parse_step (P : Params) (R : Resolver) (conn_index : Nat) (buf_index : Nat) (s : Server) :
    Option (Nat × Server) :=
  match read_int P s.buf buf_index with
  | none => none
  | some msgtype =>
    if msgtype = P.NAMEBYIP then
      match name_by_ip P R conn_index buf_index s with
      | none => none
      | some (n, s1) => some (buf_index + n, s1)
    else if msgtype = P.IPBYNAME then
      match ip_by_name R conn_index buf_index s with
      | none => none
      | some (n, s1) => some (buf_index + n, s1)
    else
      some (buf_index + 1,
        s.emit (Effect.report "conn_data_handler: unknown message type %d\n" [msgtype]))

/-- How a run of the parser loop ends: the loop condition became false (with
the final cursor and globals), an iteration had undefined behaviour, or the
bound on the number of iterations was reached with the loop condition still
true. -/
inductive ParseOutcome
  | done (buf_index : Nat) (s : Server)
  | undefined
  | out_of_fuel
  deriving DecidableEq, Repr

/-- The loop `while (buf_index < num_bytes)` of `conn_data_handler`, run for
at most `fuel` iterations. -/
def parse_steps (P : Params) (R : Resolver) (conn_index : Nat) (num_bytes : Nat) :
    Nat → Nat → Server → ParseOutcome
  | 0, buf_index, s =>
    if buf_index < num_bytes then ParseOutcome.out_of_fuel else ParseOutcome.done buf_index s
  | fuel + 1, buf_index, s =>
    if buf_index < num_bytes then
      match parse_step P R conn_index buf_index s with
      | none => ParseOutcome.undefined
      | some (buf_index1, s1) => parse_steps P R conn_index num_bytes fuel buf_index1 s1
    else ParseOutcome.done buf_index s

/-- The globals a run of the loop ends with, when it ends normally. -/
def ParseOutcome.result : ParseOutcome → Option Server
  | ParseOutcome.done _ s => some s
  | ParseOutcome.undefined => none
  | ParseOutcome.out_of_fuel => none

/-- The lines written (descriptor and bytes) among some effects. -/
def writes (t : List Effect) : List (Int × List Char) :=
  t.filterMap (fun e =>
    match e with
    | Effect.write fd data => some (fd, data)
    | _ => none)

/-! ## Requests on the wire -/

/-- A request as it is read: the bytes of the tag and the payload. -/
structure Message where
  tag : List Char
  payload : List Char
  deriving DecidableEq, Repr

/-- The bytes of a request: tag, payload, NUL. -/
def Message.bytes (m : Message) : List Char := m.tag ++ m.payload ++ [NUL]

/-- The bytes of requests sent back-to-back. -/
def wire : List Message → List Char
  | [] => []
  | m :: ms => m.bytes ++ wire ms

/-- The line `name_by_ip` formats for the address text `text`. -/
def name_line (P : Params) (R : Resolver) (text : List Char) : List Char :=
  match gethostbyaddr_long P R (addr_query R text) with
  | some h_name => text ++ [' '] ++ h_name ++ ['\n']
  | none => text ++ " 0\n".toList

/-- The line `ip_by_name` formats for the host name `name`. -/
def ip_line (R : Resolver) (name : List Char) : List Char :=
  match R.gethostbyname name with
  | none => name ++ " 0\n".toList
  | some a => name ++ [' '] ++ inet_ntoa a ++ ['\n']

/-- The effects of handling one request on descriptor `fd`: for the tag
`NAMEBYIP` nothing when the value kept from `inet_addr` equals -1, else a
reverse lookup and a line; for the other known tag a forward lookup and a
line. -/
def Message.effects (P : Params) (R : Resolver) (fd : Int) (m : Message) : List Effect :=
  if int_of_bytes P.big_endian m.tag = P.NAMEBYIP then
    if inet_addr_long P R m.payload = -1 then []
    else [Effect.gethostbyaddr (addr_query R m.payload),
      Effect.write fd (name_line P R m.payload)]
  else [Effect.gethostbyname m.payload, Effect.write fd (ip_line R m.payload)]

/-- The effects of handling the requests in order. -/
def expected_effects (P : Params) (R : Resolver) (fd : Int) : List Message → List Effect
  | [] => []
  | m :: ms => m.effects P R fd ++ expected_effects P R fd ms

/-- The request has a four-byte tag that is one of the two known tags, a
payload without NUL, and a response line that fits, with its NUL, in
`out_buf`. -/
def Message.ok (P : Params) (R : Resolver) (m : Message) : Prop :=
  m.tag.length = SIZEOF_INT ∧ NUL ∉ m.payload ∧
  (int_of_bytes P.big_endian m.tag = P.NAMEBYIP ∨
    int_of_bytes P.big_endian m.tag = P.IPBYNAME) ∧
  (int_of_bytes P.big_endian m.tag = P.NAMEBYIP →
    inet_addr_long P R m.payload ≠ -1 →
      (name_line P R m.payload).length + 1 ≤ OUT_BUF_SIZE) ∧
  (int_of_bytes P.big_endian m.tag ≠ P.NAMEBYIP →
    (ip_line R m.payload).length + 1 ≤ OUT_BUF_SIZE)

/-! ## Startup -/

/-- The system calls of `init_conn_sock` that can fail, in program order. -/
inductive SetupStep
  | socket
  | setsockopt
  | bind
  | getsockname
  | signal
  | set_socket_nonblocking
  | listen
  deriving DecidableEq, Repr

/-- The function `init_conn_sock`: `ok step` tells whether the call of that
step succeeds.  The result is the argument of `exit`, `none` when the
function returns. -/
def init_conn_sock (ok : SetupStep → Bool) : Option Nat :=
  if !ok SetupStep.socket then some 1
  else if !ok SetupStep.setsockopt then some 2
  else if !ok SetupStep.bind then some 3
  else if !ok SetupStep.getsockname then some 4
  else if !ok SetupStep.signal then some 5
  else if !ok SetupStep.set_socket_nonblocking then some 8
  else if !ok SetupStep.listen then some 10
  else none

/-- The statements of `main` before its loop.  `arg` is `none` when
`argc <= 1`, otherwise the value of `atoi(argv[1])`.  The result is the
argument of `exit`, `none` when the program enters the loop. -/
def main_startup (arg : Option Int) (ok : SetupStep → Bool) : Option Nat :=
  match arg with
  | some addr_server_port => if addr_server_port = 0 then some 2 else init_conn_sock ok
  | none => some 1

/-- The startup failure classes. -/
inductive FailureClass
  | missing_argument
  | non_numeric_argument
  | setup (step : SetupStep)
  deriving DecidableEq, Repr

/-- The exit status of a startup in which exactly the failure of the class
happens: no argument; an argument for which `atoi` returns 0; or a valid port
and the given step failing while the other steps succeed. -/
def exit_status : FailureClass → Option Nat
  | FailureClass.missing_argument => main_startup none (fun _ => true)
  | FailureClass.non_numeric_argument => main_startup (some 0) (fun _ => true)
  | FailureClass.setup step => main_startup (some 4000) (fun t => decide (t ≠ step))

/-! ## Invariants -/

/-- The counter agrees with the table. -/
def TableInv (s : Server) : Prop := s.total_conns = (open_count s : Int)

/-- The table part of the globals is the same in both. -/
def SameTable (s s1 : Server) : Prop :=
  s1.all_conns = s.all_conns ∧ s1.total_conns = s.total_conns

/-- A state of the queue globals that represents some live queue and some
free pool. -/
def QueueOk (s : QueueState) : Prop :=
  ∃ q evs p, QueueInv s q evs p

/-! ## Concrete inputs -/

/-- Sample constants: tags 0 and 1, little-endian, two events per batch,
names of up to 63 characters in a slot, a `long` of four bytes. -/
def P0 : Params :=
  { MAX_EVENTS_TO_PROCESS := 2, NAMEBYIP := 0, IPBYNAME := 1, big_endian := false,
    SNAME_LEN := 64, SIZEOF_LONG := 4 }

/-- The constants of `P0` on a machine whose `long` has eight bytes. -/
def P64 : Params := { P0 with SIZEOF_LONG := 8 }

/-- A resolver that knows `localhost` and `127.0.0.1` only. -/
def dns0 : Resolver :=
  { gethostbyname := fun name => if name = "localhost".toList then some ⟨127, 0, 0, 1⟩ else none
    gethostbyaddr := fun a => if a = ⟨127, 0, 0, 1⟩ then some "localhost".toList else none
    inet_addr := fun t => if t = "127.0.0.1".toList then some ⟨127, 0, 0, 1⟩ else none
    gethostbyaddr_sized := fun _ _ => none }

/-- Outcome of a call in which `accept` returns `fd` for a peer at
127.0.0.1. -/
def accepted (fd : Int) : Outcome :=
  { new_fd := fd, client := ⟨127, 0, 0, 1⟩, close_ok := true,
    rd := ReadResult.would_block, dns := dns0 }

/-- Outcome of a call in which `accept` returns `fd` for a peer at 10.0.0.1,
an address the resolver has no entry for. -/
def accepted_unknown (fd : Int) : Outcome :=
  { new_fd := fd, client := ⟨10, 0, 0, 1⟩, close_ok := true,
    rd := ReadResult.would_block, dns := dns0 }

/-- Outcome of a call in which `read` returns `rd` and `close` succeeds or
not. -/
def received (rd : ReadResult) (close_ok : Bool) : Outcome :=
  { new_fd := -1, client := ⟨0, 0, 0, 0⟩, close_ok := close_ok, rd := rd, dns := dns0 }

/-- Outcome of a call in which `accept` returns `fd` for a peer at 127.0.0.1
and the resolver maps 127.0.0.1 to the 70-character name `long_name`. -/
def accepted_long (fd : Int) : Outcome :=
  { new_fd := fd, client := ⟨127, 0, 0, 1⟩, close_ok := true,
    rd := ReadResult.would_block,
    dns :=
      { gethostbyname := fun _ => none
        gethostbyaddr := fun a =>
          if a = ⟨127, 0, 0, 1⟩ then
            some (List.replicate 35 'a' ++ ['.'] ++ List.replicate 34 'a')
          else none
        inet_addr := fun _ => none
        gethostbyaddr_sized := fun _ _ => none } }

/-- Two accepts, end of file on the first connection, a stray terminate. -/
def calls_a : List Call :=
  [Call.new_conn (accepted 4), Call.new_conn (accepted 5),
   Call.conn_data 4 (received (ReadResult.bytes []) true), Call.terminate 7 true]

/-- A slot whose peer is `localhost`. -/
def slot (fd : Int) (st : ConnState) : connection :=
  { fd := fd, state := st, addr := ⟨127, 0, 0, 1⟩, sname := "localhost".toList }

/-- The globals after `calls_a` on a table of two slots. -/
def srv_a : Server :=
  { all_conns := [slot 4 ConnState.CLOSED, slot 5 ConnState.OPEN]
    total_conns := 1
    buf := List.replicate IN_BUF_SIZE NUL
    trace := [Effect.gethostbyaddr ⟨127, 0, 0, 1⟩, Effect.gethostbyaddr ⟨127, 0, 0, 1⟩,
      Effect.close 4, Effect.report "terminate: conn_index %d out of range.\n" [7]] }

/-- One accept. -/
def calls_b : List Call := [Call.new_conn (accepted 5)]

/-- The globals after `calls_b` on a table of one slot: the table is full. -/
def srv_b : Server :=
  { all_conns := [slot 5 ConnState.OPEN]
    total_conns := 1
    buf := List.replicate IN_BUF_SIZE NUL
    trace := [Effect.gethostbyaddr ⟨127, 0, 0, 1⟩] }

/-- Three events arrive, two are handled, two more arrive, all are
handled. -/
def ops_a : List QueueOp :=
  [QueueOp.enq 3 EventType.NEW_CONN, QueueOp.enq 4 EventType.CONN, QueueOp.enq 5 EventType.CONN,
   QueueOp.deq, QueueOp.deq, QueueOp.enq 4 EventType.CONN, QueueOp.enq 3 EventType.NEW_CONN,
   QueueOp.deq, QueueOp.deq, QueueOp.deq]

/-- The queue globals after `ops_a`: the live queue is empty, the three
nodes allocated are in the free pool. -/
def queue_a : QueueState :=
  { heap := [{ event_type := EventType.NEW_CONN, fd := 3, next := some 1 },
             { event_type := EventType.CONN, fd := 4, next := some 2 },
             { event_type := EventType.CONN, fd := 5, next := none }]
    queue_head := none
    queue_tail := some 0
    stack_head := some 0
    queue_length := 0
    log := [] }

/-- Three events to enqueue. -/
def events_a : List (EventType × Int) :=
  [(EventType.CONN, 7), (EventType.NEW_CONN, 3), (EventType.CONN, 8)]

/-- A new connection and two data events arrive. -/
def ops_c : List QueueOp :=
  [QueueOp.enq 3 EventType.NEW_CONN, QueueOp.enq 5 EventType.CONN, QueueOp.enq 5 EventType.CONN]

/-- The queue globals after `ops_c`. -/
def queue_c : QueueState :=
  { heap := [{ event_type := EventType.NEW_CONN, fd := 3, next := some 1 },
             { event_type := EventType.CONN, fd := 5, next := some 2 },
             { event_type := EventType.CONN, fd := 5, next := none }]
    queue_head := some 0
    queue_tail := some 2
    stack_head := none
    queue_length := 3
    log := [] }

/-- The table of `srv_a`, three queued events, listening descriptor 3. -/
def world_c : World := { srv := srv_a, queue := queue_c, conn_fd := 3 }

/-- The first event of a batch finds a peer accepted on descriptor 9, the
later ones find that `read` would block. -/
def env_c (i : Nat) : Outcome :=
  if i = 0 then accepted 9 else received ReadResult.would_block true

/-- Two accepts, both connections terminated, then an accept that returns
descriptor 5 again. -/
def calls_d : List Call :=
  [Call.new_conn (accepted 4), Call.new_conn (accepted 5), Call.terminate 0 true,
   Call.terminate 1 true, Call.new_conn (accepted 5)]

/-- The globals after `calls_d` on a table of two slots: slot 0 is OPEN with
descriptor 5, slot 1 is CLOSED and still stores descriptor 5. -/
def srv_d : Server :=
  { all_conns := [slot 5 ConnState.OPEN, slot 5 ConnState.CLOSED]
    total_conns := 1
    buf := List.replicate IN_BUF_SIZE NUL
    trace := [Effect.gethostbyaddr ⟨127, 0, 0, 1⟩, Effect.gethostbyaddr ⟨127, 0, 0, 1⟩,
      Effect.close 4, Effect.close 5, Effect.gethostbyaddr ⟨127, 0, 0, 1⟩] }

/-- The table of `srv_d`, an empty queue, listening descriptor 3. -/
def world_d : World := { srv := srv_d, queue := init_queue, conn_fd := 3 }

/-- A host name of 70 characters, two labels of 35 and 34. -/
def long_name : List Char := List.replicate 35 'a' ++ ['.'] ++ List.replicate 34 'a'

/-- A resolver that maps `long_name` to 127.0.0.1. -/
def dns_long : Resolver :=
  { gethostbyname := fun name => if name = long_name then some ⟨127, 0, 0, 1⟩ else none
    gethostbyaddr := fun _ => none
    inet_addr := fun _ => none
    gethostbyaddr_sized := fun _ _ => none }

/-- The 75 bytes of the request `IP_BY_NAME(long_name)`: the tag 1 in
little-endian order, the name, a NUL. -/
def msg_long : List Char :=
  [Char.ofNat 1, NUL, NUL, NUL] ++ long_name ++ [NUL]

/-- The globals of `srv_b` after `read` has stored `msg_long` in `buf`. -/
def srv_long : Server :=
  { srv_b with buf := msg_long ++ List.replicate 5 NUL }

/-- Outcome of a call in which `read` returns `msg_long`. -/
def received_long : Outcome :=
  { new_fd := -1, client := ⟨0, 0, 0, 0⟩, close_ok := true,
    rd := ReadResult.bytes msg_long, dns := dns_long }

/-- The 14 bytes of the request `IP_BY_NAME("localhost")`. -/
def msg_localhost : List Char :=
  [Char.ofNat 1, NUL, NUL, NUL] ++ "localhost".toList ++ [NUL]

/-- Three events arrive and one is handled: two live nodes, one free. -/
def ops_e : List QueueOp :=
  [QueueOp.enq 3 EventType.NEW_CONN, QueueOp.enq 4 EventType.CONN, QueueOp.enq 5 EventType.CONN,
   QueueOp.deq]

/-- The queue globals after `ops_e`. -/
def queue_e : QueueState :=
  { heap := [{ event_type := EventType.NEW_CONN, fd := 3, next := none },
             { event_type := EventType.CONN, fd := 4, next := some 2 },
             { event_type := EventType.CONN, fd := 5, next := none }]
    queue_head := some 1
    queue_tail := some 2
    stack_head := some 0
    queue_length := 2
    log := [] }

/-- A resolver that maps `localhost` to 127.0.0.1 and 127.0.0.1 back to the
70-character name `long_name`. -/
def dns_rev_long : Resolver :=
  { gethostbyname := fun name => if name = "localhost".toList then some ⟨127, 0, 0, 1⟩ else none
    gethostbyaddr := fun a => if a = ⟨127, 0, 0, 1⟩ then some long_name else none
    inet_addr := fun t => if t = "127.0.0.1".toList then some ⟨127, 0, 0, 1⟩ else none
    gethostbyaddr_sized := fun _ _ => none }

/-- The 14 bytes of the request `NAME_BY_IP("127.0.0.1")`: the tag 0, the
address, a NUL. -/
def msg_rev : List Char :=
  [NUL, NUL, NUL, NUL] ++ "127.0.0.1".toList ++ [NUL]

/-- The globals of `srv_b` after `read` has stored `msg_rev` in `buf`. -/
def srv_rev : Server :=
  { srv_b with buf := msg_rev ++ List.replicate 66 NUL }

/-- Outcome of a call in which `read` returns `msg_rev` and the resolver is
`dns_rev_long`. -/
def received_rev : Outcome :=
  { new_fd := -1, client := ⟨0, 0, 0, 0⟩, close_ok := true,
    rd := ReadResult.bytes msg_rev, dns := dns_rev_long }

/-- The 19 bytes of the request `NAME_BY_IP("not-an-address")`. -/
def msg_bad : List Char :=
  [NUL, NUL, NUL, NUL] ++ "not-an-address".toList ++ [NUL]

/-- The globals of `srv_b` after `read` has stored `msg_bad` in `buf`. -/
def srv_bad : Server :=
  { srv_b with buf := msg_bad ++ List.replicate 61 NUL }

/-- The 28 bytes of two requests back-to-back: `IP_BY_NAME("localhost")`,
then `NAME_BY_IP("127.0.0.1")`. -/
def msg_two : List Char := msg_localhost ++ msg_rev

/-- Outcome of a call in which `read` returns `msg_two` and the resolver is
`dns_rev_long`. -/
def received_two : Outcome :=
  { new_fd := -1, client := ⟨0, 0, 0, 0⟩, close_ok := true,
    rd := ReadResult.bytes msg_two, dns := dns_rev_long }

/-- Two accepts. -/
def calls_f : List Call := [Call.new_conn (accepted 4), Call.new_conn (accepted 5)]

/-- The globals after `calls_f` on a table of two slots: descriptors 4 and 5
are OPEN, the static buffer is still zeroed. -/
def srv_f : Server :=
  { all_conns := [slot 4 ConnState.OPEN, slot 5 ConnState.OPEN]
    total_conns := 2
    buf := List.replicate IN_BUF_SIZE NUL
    trace := [Effect.gethostbyaddr ⟨127, 0, 0, 1⟩, Effect.gethostbyaddr ⟨127, 0, 0, 1⟩] }

/-- The 19 bytes of the request `IP_BY_NAME("secret.example")`. -/
def msg_secret : List Char :=
  [Char.ofNat 1, NUL, NUL, NUL] ++ "secret.example".toList ++ [NUL]

/-- Five bytes: the tag of `IP_BY_NAME` and the letter `a`, without a NUL. -/
def msg_short : List Char := [Char.ofNat 1, NUL, NUL, NUL, 'a']

/-- The globals of `srv_f` after the request `msg_secret` was read from
descriptor 4 and answered: the request is still in the static buffer. -/
def srv_g : Server :=
  { srv_f with
    buf := msg_secret ++ List.replicate 61 NUL
    trace := srv_f.trace ++ [Effect.gethostbyname "secret.example".toList,
      Effect.write 4 "secret.example 0\n".toList] }

/-- The two requests of `msg_two`. -/
def msgs_two : List Message :=
  [{ tag := [Char.ofNat 1, NUL, NUL, NUL], payload := "localhost".toList },
   { tag := [NUL, NUL, NUL, NUL], payload := "127.0.0.1".toList }]

/-! ## Lemmas on the connection table -/

theorem find_slot_some {p : connection → Bool} {l : List connection} {i : Nat}
    (h : find_slot p l = some i) :
    ∃ c, l[i]? = some c ∧ p c = true ∧ ∀ j c1, j < i → l[j]? = some c1 → p c1 = false := by
  induction l generalizing i with
  | nil => simp [find_slot] at h
  | cons x xs ih =>
    unfold find_slot at h
    by_cases hx : p x = true
    · simp [hx] at h
      subst h
      exact ⟨x, by simp, hx, by intro j c1 hj; omega⟩
    · simp [hx] at h
      obtain ⟨k, hk, rfl⟩ := h
      obtain ⟨c, hc, hpc, hlow⟩ := ih hk
      refine ⟨c, by simpa using hc, hpc, ?_⟩
      intro j c1 hj hj1
      cases j with
      | zero =>
        simp at hj1
        subst hj1
        simpa using hx
      | succ j => exact hlow j c1 (by omega) (by simpa using hj1)

theorem find_slot_none {p : connection → Bool} {l : List connection}
    (h : find_slot p l = none) : ∀ c ∈ l, p c = false := by
  induction l with
  | nil => simp
  | cons x xs ih =>
    unfold find_slot at h
    by_cases hx : p x = true
    · simp [hx] at h
    · simp [hx] at h
      intro c hc
      rcases List.mem_cons.mp hc with rfl | hc
      · simpa using hx
      · exact ih h c hc

theorem countP_set (p : connection → Bool) {l : List connection} {i : Nat} {c : connection}
    (c1 : connection) (h : l[i]? = some c) :
    (l.set i c1).countP p + (if p c then 1 else 0) = l.countP p + (if p c1 then 1 else 0) := by
  induction l generalizing i with
  | nil => simp at h
  | cons x xs ih =>
    cases i with
    | zero =>
      simp at h
      subst h
      simp only [List.set_cons_zero, List.countP_cons]
      omega
    | succ i =>
      simp at h
      have := ih h
      simp only [List.set_cons_succ, List.countP_cons]
      omega

theorem tableInv_emit {s : Server} (e : Effect) (h : TableInv s) : TableInv (s.emit e) := h

theorem terminate_inv (i : Int) (ok : Bool) {s : Server} (h : TableInv s) :
    TableInv (terminate i ok s) := by
  unfold terminate
  split
  · exact h
  · split
    · exact h
    · rename_i c hc
      split
      · exact h
      · rename_i hst
        cases ok with
        | false => exact h
        | true =>
          have hopen : c.state = ConnState.OPEN := by
            cases hcs : c.state with
            | CLOSED => exact absurd hcs hst
            | OPEN => rfl
          have hcount := countP_set (fun c => decide (c.state = ConnState.OPEN))
            { c with state := ConnState.CLOSED } hc
          simp [hopen] at hcount
          simp only [TableInv, open_count, Server.emit] at h ⊢
          simp only [if_true]
          omega

theorem new_conn_handler_inv (P : Params) (o : Outcome) {s s1 : Server} (h : TableInv s)
    (hs : new_conn_handler P o s = some s1) : TableInv s1 := by
  unfold new_conn_handler at hs
  by_cases h1 : o.new_fd = -1
  · simp [h1] at hs; subst hs; exact h
  · by_cases h2 : s.total_conns ≥ (MAX_CONNS s : Int)
    · cases hc : o.close_ok <;> simp [h1, h2, hc] at hs <;> (subst hs; exact h)
    · simp only [h1, h2, if_false] at hs
      cases hf : find_slot (fun c => decide (c.state = ConnState.CLOSED)) s.all_conns with
      | none =>
        simp [Server.emit, hf] at hs
        subst hs
        exact h
      | some i =>
        cases hg : o.dns.gethostbyaddr o.client with
        | none => simp [Server.emit, hf, hg] at hs
        | some name =>
          by_cases hfit : name.length + 1 ≤ P.SNAME_LEN
          · simp [Server.emit, hf, hg, hfit] at hs
            subst hs
            obtain ⟨c, hc, hpc, -⟩ := find_slot_some hf
            have hclosed : c.state = ConnState.CLOSED := by simpa using hpc
            have hcount := countP_set (fun c => decide (c.state = ConnState.OPEN))
              { fd := o.new_fd, state := ConnState.OPEN, addr := o.client, sname := name } hc
            simp [hclosed] at hcount
            simp only [TableInv, open_count] at h ⊢
            omega
          · simp [Server.emit, hf, hg, hfit] at hs

theorem respond_table {i : Nat} {line : List Char} {s s1 : Server}
    (h : respond i line s = some s1) : SameTable s s1 := by
  unfold respond at h
  split at h
  · split at h
    · simp at h; subst h; exact ⟨rfl, rfl⟩
    · simp at h
  · simp at h

theorem ip_by_name_table {R : Resolver} {i off n : Nat} {s s1 : Server}
    (h : ip_by_name R i off s = some (n, s1)) : SameTable s s1 := by
  unfold ip_by_name at h
  cases hc : cstr s.buf (off + SIZEOF_INT) with
  | none => simp [hc] at h
  | some name =>
    simp only [hc] at h
    split at h
    · simp at h
    · rename_i h2
      simp at h
      obtain ⟨-, rfl⟩ := h
      have b := respond_table h2
      exact ⟨b.1, b.2⟩

theorem name_by_ip_table {P : Params} {R : Resolver} {i off n : Nat} {s s1 : Server}
    (h : name_by_ip P R i off s = some (n, s1)) : SameTable s s1 := by
  unfold name_by_ip at h
  cases hc : cstr s.buf (off + SIZEOF_INT) with
  | none => simp [hc] at h
  | some text =>
    simp only [hc] at h
    by_cases ha : inet_addr_long P R text = -1
    · simp [ha] at h
      obtain ⟨-, rfl⟩ := h
      exact ⟨rfl, rfl⟩
    · simp only [ha, if_false] at h
      split at h
      · simp at h
      · rename_i h2
        simp at h
        obtain ⟨-, rfl⟩ := h
        have b := respond_table h2
        exact ⟨b.1, b.2⟩

theorem parse_loop_table {P : Params} {R : Resolver} {i nb : Nat} (fuel : Nat) :
    ∀ (bi : Nat) (s s1 : Server), parse_loop P R i nb fuel bi s = some s1 → SameTable s s1 := by
  induction fuel with
  | zero =>
    intro bi s s1 h
    unfold parse_loop at h
    split at h
    · simp at h
    · simp at h; subst h; exact ⟨rfl, rfl⟩
  | succ fuel ih =>
    intro bi s s1 h
    unfold parse_loop at h
    split at h
    · split at h
      · simp at h
      · split at h
        · split at h
          · simp at h
          · rename_i h2
            have a := name_by_ip_table h2
            have b := ih _ _ _ h
            exact ⟨b.1.trans a.1, b.2.trans a.2⟩
        · split at h
          · split at h
            · simp at h
            · rename_i h2
              have a := ip_by_name_table h2
              have b := ih _ _ _ h
              exact ⟨b.1.trans a.1, b.2.trans a.2⟩
          · have b := ih _ _ _ h
            exact ⟨b.1, b.2⟩
    · simp at h; subst h; exact ⟨rfl, rfl⟩

theorem tableInv_of_same {s s1 : Server} (h : SameTable s s1) (hi : TableInv s) : TableInv s1 := by
  unfold TableInv open_count at *
  rw [h.1, h.2]
  exact hi

theorem conn_data_handler_inv (P : Params) (fd : Int) (o : Outcome) {s s1 : Server}
    (h : TableInv s) (hs : conn_data_handler P fd o s = some s1) : TableInv s1 := by
  unfold conn_data_handler at hs
  simp only at hs
  split at hs
  · simp at hs; subst hs; exact h
  · split at hs
    · simp at hs; subst hs; exact h
    · simp at hs; subst hs
      exact terminate_inv _ _ (tableInv_emit _ h)
    · split at hs
      · simp at hs; subst hs
        apply terminate_inv
        split
        · split
          · exact h
          · exact h
        · exact h
      · exact tableInv_of_same (parse_loop_table _ _ _ _ hs) h

theorem step_inv (P : Params) (c : Call) {s s1 : Server} (h : TableInv s)
    (hs : step P c s = some s1) : TableInv s1 := by
  cases c with
  | new_conn o => exact new_conn_handler_inv P o h hs
  | conn_data fd o => exact conn_data_handler_inv P fd o h hs
  | terminate i ok =>
    simp [step] at hs
    subst hs
    exact terminate_inv i ok h

theorem run_inv (P : Params) (calls : List Call) :
    ∀ {s s1 : Server}, TableInv s → run P calls s = some s1 → TableInv s1 := by
  induction calls with
  | nil =>
    intro s s1 h hs
    simp [run] at hs
    subst hs
    exact h
  | cons c cs ih =>
    intro s s1 h hs
    unfold run at hs
    split at hs
    · simp at hs
    · rename_i s2 h2
      exact ih (step_inv P c h h2) hs

theorem init_server_inv (n : Nat) : TableInv (init_server n) := by
  simp [TableInv, open_count, init_server, init_conns, List.countP_replicate]

theorem find_slot_eq {p : connection → Bool} {l : List connection} {i : Nat} {c : connection}
    (hc : l[i]? = some c) (hp : p c = true)
    (hlow : ∀ j c1, j < i → l[j]? = some c1 → p c1 = false) : find_slot p l = some i := by
  induction l generalizing i with
  | nil => simp at hc
  | cons x xs ih =>
    cases i with
    | zero =>
      simp at hc
      subst hc
      simp [find_slot, hp]
    | succ i =>
      have hx : p x = false := hlow 0 x (by omega) (by simp)
      have := ih (by simpa using hc)
        (fun j c1 hj hj1 => hlow (j + 1) c1 (by omega) (by simpa using hj1))
      simp [find_slot, hx, this]

theorem terminate_length (i : Int) (ok : Bool) (s : Server) :
    (terminate i ok s).all_conns.length = s.all_conns.length := by
  unfold terminate
  split
  · rfl
  · split
    · rfl
    · split
      · rfl
      · cases ok <;> simp [Server.emit]

theorem new_conn_handler_length (P : Params) (o : Outcome) {s s1 : Server}
    (hs : new_conn_handler P o s = some s1) : s1.all_conns.length = s.all_conns.length := by
  unfold new_conn_handler at hs
  by_cases h1 : o.new_fd = -1
  · simp [h1] at hs; subst hs; rfl
  · by_cases h2 : s.total_conns ≥ (MAX_CONNS s : Int)
    · cases hc : o.close_ok <;> simp [h1, h2, hc] at hs <;> (subst hs; rfl)
    · simp only [h1, h2, if_false] at hs
      cases hf : find_slot (fun c => decide (c.state = ConnState.CLOSED)) s.all_conns with
      | none =>
        simp [Server.emit, hf] at hs
        subst hs
        rfl
      | some i =>
        cases hg : o.dns.gethostbyaddr o.client with
        | none => simp [Server.emit, hf, hg] at hs
        | some name =>
          by_cases hfit : name.length + 1 ≤ P.SNAME_LEN
          · simp [Server.emit, hf, hg, hfit] at hs
            subst hs
            simp
          · simp [Server.emit, hf, hg, hfit] at hs

theorem conn_data_handler_length (P : Params) (fd : Int) (o : Outcome) {s s1 : Server}
    (hs : conn_data_handler P fd o s = some s1) : s1.all_conns.length = s.all_conns.length := by
  unfold conn_data_handler at hs
  simp only at hs
  split at hs
  · simp at hs; subst hs; rfl
  · split at hs
    · simp at hs; subst hs; rfl
    · simp at hs; subst hs
      rw [terminate_length]; rfl
    · split at hs
      · simp at hs; subst hs
        rw [terminate_length]
        split
        · split <;> rfl
        · rfl
      · rw [(parse_loop_table _ _ _ _ hs).1]

theorem step_length (P : Params) (c : Call) {s s1 : Server}
    (hs : step P c s = some s1) : s1.all_conns.length = s.all_conns.length := by
  cases c with
  | new_conn o => exact new_conn_handler_length P o hs
  | conn_data fd o => exact conn_data_handler_length P fd o hs
  | terminate i ok =>
    simp [step] at hs
    subst hs
    exact terminate_length i ok s

theorem run_length (P : Params) (calls : List Call) :
    ∀ {s s1 : Server}, run P calls s = some s1 → s1.all_conns.length = s.all_conns.length := by
  induction calls with
  | nil =>
    intro s s1 hs
    simp [run] at hs
    subst hs
    rfl
  | cons c cs ih =>
    intro s s1 hs
    unfold run at hs
    split at hs
    · simp at hs
    · rename_i s2 h2
      rw [ih hs, step_length P c h2]

theorem reachable_inv {P : Params} {n : Nat} {calls : List Call} {s : Server}
    (h : run P calls (init_server n) = some s) :
    TableInv s ∧ s.all_conns.length = n := by
  refine ⟨run_inv P calls (init_server_inv n) h, ?_⟩
  rw [run_length P calls h]
  simp [init_server, init_conns]

theorem static_server_inv (n : Nat) : TableInv (static_server n) := by
  simp [TableInv, open_count, static_server, List.countP_replicate]

/-- The table invariants also hold in every state reached from the zeroed
statics `main` really starts with. -/
theorem reachable_from_static_inv {P : Params} {n : Nat} {calls : List Call} {s : Server}
    (h : run P calls (static_server n) = some s) :
    TableInv s ∧ s.all_conns.length = n := by
  refine ⟨run_inv P calls (static_server_inv n) h, ?_⟩
  rw [run_length P calls h]
  simp [static_server]

theorem open_count_full {s : Server} (h : ∀ c ∈ s.all_conns, c.state = ConnState.OPEN) :
    open_count s = s.all_conns.length := by
  unfold open_count
  rw [List.countP_eq_length]
  intro c hc
  simpa using h c hc

theorem open_count_lt {s : Server} {i : Nat} {c : connection}
    (hc : s.all_conns[i]? = some c) (hclosed : c.state = ConnState.CLOSED) :
    open_count s < s.all_conns.length := by
  unfold open_count
  apply lt_of_le_of_ne (List.countP_le_length _)
  intro heq
  rw [List.countP_eq_length] at heq
  have hm : c ∈ s.all_conns := List.getElem?_mem hc
  have := heq c hm
  simp [hclosed] at this

/-! ## Theorems on the connection table -/

/-- C2. Capacity and rejection: in every reachable state the number of OPEN
slots is at most `MAX_CONNS`; and when all slots are OPEN and `accept`
succeeds, `new_conn_handler` writes the notice to the new descriptor, closes
it, and leaves every slot and `total_conns` unchanged. -/
theorem capacity_and_rejection (P : Params) (n : Nat) (calls : List Call) (s : Server)
    (h : run P calls (init_server n) = some s) :
    MAX_CONNS s = n ∧ open_count s ≤ MAX_CONNS s ∧
    ∀ o : Outcome, o.new_fd ≠ -1 → (∀ c ∈ s.all_conns, c.state = ConnState.OPEN) →
      ∃ s1, new_conn_handler P o s = some s1 ∧
        s1.all_conns = s.all_conns ∧ s1.total_conns = s.total_conns ∧
        s1.trace = s.trace ++
          [Effect.report "new_conn_handler: no available connection slots.\n" [],
           Effect.write o.new_fd "no available slots -- closing connection.\n".toList,
           Effect.close o.new_fd] ++
          (if o.close_ok then [] else [Effect.report "new_conn_handler: close" []]) := by
  obtain ⟨hinv, hlen⟩ := reachable_inv h
  refine ⟨hlen, List.countP_le_length _, ?_⟩
  intro o hacc hfull
  have htot : s.total_conns ≥ (MAX_CONNS s : Int) := by
    rw [hinv, open_count_full hfull]
    simp [MAX_CONNS]
  unfold new_conn_handler
  cases hc : o.close_ok <;> simp [hacc, htot, hc, Server.emit, no_slots_message]

/-- Slot reuse and selection when the peer name fits: in every reachable
state with at least one CLOSED slot, a `new_conn_handler` call whose `accept`
and peer lookup succeed, with a peer name that fits with its NUL in the
`SNAME_LEN` bytes of `sname`, does not reject: it stores the new descriptor in
the lowest-indexed CLOSED slot `i`, marks it OPEN and increments
`total_conns`; the other slots are unchanged and nothing is written or
closed. -/
theorem slot_reuse_when_name_fits (P : Params) (n : Nat) (calls : List Call) (s : Server)
    (o : Outcome) (h_name : List Char)
    (h : run P calls (init_server n) = some s)
    (hacc : o.new_fd ≠ -1) (hname : o.dns.gethostbyaddr o.client = some h_name)
    (hfit : h_name.length + 1 ≤ P.SNAME_LEN)
    (hclosed : ∃ c ∈ s.all_conns, c.state = ConnState.CLOSED) :
    ∃ i c, s.all_conns[i]? = some c ∧ c.state = ConnState.CLOSED ∧
      (∀ j c1, j < i → s.all_conns[j]? = some c1 → c1.state = ConnState.OPEN) ∧
      new_conn_handler P o s = some
        { s with
          all_conns := s.all_conns.set i
            { fd := o.new_fd, state := ConnState.OPEN, addr := o.client, sname := h_name },
          total_conns := s.total_conns + 1,
          trace := s.trace ++ [Effect.gethostbyaddr o.client] } := by
  obtain ⟨hinv, -⟩ := reachable_inv h
  obtain ⟨c0, hc0, hc0closed⟩ := hclosed
  cases hf : find_slot (fun c => decide (c.state = ConnState.CLOSED)) s.all_conns with
  | none =>
    have := find_slot_none hf c0 hc0
    simp [hc0closed] at this
  | some i =>
    obtain ⟨c, hc, hpc, hlow⟩ := find_slot_some hf
    have hcclosed : c.state = ConnState.CLOSED := by simpa using hpc
    have hlt := open_count_lt hc hcclosed
    have htot : ¬ s.total_conns ≥ (MAX_CONNS s : Int) := by
      rw [hinv]
      simp only [MAX_CONNS]
      omega
    refine ⟨i, c, hc, hcclosed, ?_, ?_⟩
    · intro j c1 hj hj1
      have := hlow j c1 hj hj1
      cases hst : c1.state with
      | OPEN => rfl
      | CLOSED => simp [hst] at this
    · unfold new_conn_handler
      simp [hacc, htot, Server.emit, hf, hname, hfit]

/-- Whatever `SNAME_LEN` is, a peer name of `SNAME_LEN` characters or more
makes the call undefined: in every reachable state with at least one CLOSED
slot, when `accept` and the peer lookup succeed, `strcpy` writes the name and
its NUL beyond the `sname` array of the slot. -/
theorem peer_name_overflow (P : Params) (n : Nat) (calls : List Call) (s : Server)
    (o : Outcome) (h_name : List Char)
    (h : run P calls (init_server n) = some s)
    (hacc : o.new_fd ≠ -1) (hname : o.dns.gethostbyaddr o.client = some h_name)
    (hlong : P.SNAME_LEN < h_name.length + 1)
    (hclosed : ∃ c ∈ s.all_conns, c.state = ConnState.CLOSED) :
    new_conn_handler P o s = none := by
  obtain ⟨hinv, -⟩ := reachable_inv h
  obtain ⟨c0, hc0, hc0closed⟩ := hclosed
  cases hf : find_slot (fun c => decide (c.state = ConnState.CLOSED)) s.all_conns with
  | none =>
    have := find_slot_none hf c0 hc0
    simp [hc0closed] at this
  | some i =>
    obtain ⟨c, hc, hpc, -⟩ := find_slot_some hf
    have hcclosed : c.state = ConnState.CLOSED := by simpa using hpc
    have hlt := open_count_lt hc hcclosed
    have htot : ¬ s.total_conns ≥ (MAX_CONNS s : Int) := by
      rw [hinv]
      simp only [MAX_CONNS]
      omega
    have hfit : ¬ h_name.length + 1 ≤ P.SNAME_LEN := by omega
    unfold new_conn_handler
    simp [hacc, htot, Server.emit, hf, hname, hfit]

/-- C6. The failing input: slot 0 of `srv_a` is CLOSED (it was closed by
`terminate`), `accept` returns descriptor 9 and the reverse lookup of the peer
succeeds with the 70-character name `long_name`.  With `SNAME_LEN = 64`,
`strcpy` writes 71 bytes into the 64-byte `sname` of slot 0, past the end of
the slot and into the next one: the call has undefined behaviour instead of
registering the connection. -/
theorem long_peer_name_overflows_sname :
    run P0 calls_a (init_server 2) = some srv_a ∧
    srv_a.all_conns.map (fun c => c.state) = [ConnState.CLOSED, ConnState.OPEN] ∧
    (accepted_long 9).new_fd ≠ -1 ∧
    (accepted_long 9).dns.gethostbyaddr (accepted_long 9).client = some long_name ∧
    long_name.length + 1 = 71 ∧ P0.SNAME_LEN = 64 ∧
    new_conn_handler P0 (accepted_long 9) srv_a = none := by
  decide

/-- Witness of C2: a third peer arrives at the full one-slot table. -/
theorem capacity_and_rejection_witness :
    run P0 calls_b (init_server 1) = some srv_b ∧
    MAX_CONNS srv_b = 1 ∧ open_count srv_b ≤ MAX_CONNS srv_b ∧
    ∃ s1, new_conn_handler P0 (accepted 6) srv_b = some s1 ∧
      s1.all_conns = srv_b.all_conns ∧ s1.total_conns = srv_b.total_conns ∧
      s1.trace = srv_b.trace ++
        [Effect.report "new_conn_handler: no available connection slots.\n" [],
         Effect.write (accepted 6).new_fd "no available slots -- closing connection.\n".toList,
         Effect.close (accepted 6).new_fd] ++
        (if (accepted 6).close_ok then [] else [Effect.report "new_conn_handler: close" []]) :=
  ⟨by decide,
   (capacity_and_rejection P0 1 calls_b srv_b (by decide)).1,
   (capacity_and_rejection P0 1 calls_b srv_b (by decide)).2.1,
   (capacity_and_rejection P0 1 calls_b srv_b (by decide)).2.2 (accepted 6) (by decide)
     (by decide)⟩

/-- Slot 0 of `srv_a` was closed by `terminate` and is taken again by a
peer whose name fits. -/
theorem slot_reuse_example :
    run P0 calls_a (init_server 2) = some srv_a ∧
    ∃ i c, srv_a.all_conns[i]? = some c ∧ c.state = ConnState.CLOSED ∧
      (∀ j c1, j < i → srv_a.all_conns[j]? = some c1 → c1.state = ConnState.OPEN) ∧
      new_conn_handler P0 (accepted 9) srv_a = some
        { srv_a with
          all_conns := srv_a.all_conns.set i
            { fd := (accepted 9).new_fd, state := ConnState.OPEN,
              addr := (accepted 9).client, sname := "localhost".toList },
          total_conns := srv_a.total_conns + 1,
          trace := srv_a.trace ++ [Effect.gethostbyaddr (accepted 9).client] } :=
  ⟨by decide,
   slot_reuse_when_name_fits P0 2 calls_a srv_a (accepted 9) "localhost".toList
    (by decide) (by decide) (by decide) (by decide) ⟨slot 4 ConnState.CLOSED, by decide, rfl⟩⟩

/-- C5, as stated, fails when `close` fails: after a read of zero bytes on
the only connection the slot is still OPEN and `total_conns` is still 1. -/
theorem eof_close_failure :
    run P0 calls_b (init_server 1) = some srv_b ∧
    conn_data_handler P0 5 (received (ReadResult.bytes []) false) srv_b = some
      { srv_b with
        trace := srv_b.trace ++ [Effect.close 5, Effect.report "terminate: close" []] } ∧
    srv_b.all_conns = [slot 5 ConnState.OPEN] ∧ srv_b.total_conns = 1 := by
  decide

/-- C5, amended. When `conn_data_handler(fd)` reads zero bytes, it calls
`close` on the descriptor of the lowest-indexed OPEN slot `i` that holds
`fd`; if `close` succeeds, slot `i` becomes CLOSED, the other slots are
unchanged and `total_conns` is one less; if `close` fails, the table and the
counter are unchanged. -/
theorem eof_termination (P : Params) (s : Server) (fd : Int) (o : Outcome) (i : Nat)
    (c : connection)
    (hc : s.all_conns[i]? = some c) (hopen : c.state = ConnState.OPEN) (hfd : c.fd = fd)
    (hlow : ∀ j c1, j < i → s.all_conns[j]? = some c1 →
      ¬ (c1.state = ConnState.OPEN ∧ c1.fd = fd))
    (hrd : o.rd = ReadResult.bytes []) :
    ∃ s1, conn_data_handler P fd o s = some s1 ∧
      s1.trace = s.trace ++ [Effect.close fd] ++
        (if o.close_ok then [] else [Effect.report "terminate: close" []]) ∧
      (o.close_ok = true →
        s1.all_conns = s.all_conns.set i { c with state := ConnState.CLOSED } ∧
        s1.total_conns = s.total_conns - 1) ∧
      (o.close_ok = false →
        s1.all_conns = s.all_conns ∧ s1.total_conns = s.total_conns) := by
  have hf : find_slot (fun c => decide (c.state = ConnState.OPEN) && decide (c.fd = fd))
      s.all_conns = some i := by
    apply find_slot_eq hc (by simp [hopen, hfd])
    intro j c1 hj hj1
    have := hlow j c1 hj hj1
    simpa using this
  have hidx : index_by_fd s fd = (i : Int) := by simp [index_by_fd, hf]
  have hilt : i < s.all_conns.length := by
    rcases List.getElem?_eq_some.mp hc with ⟨h, -⟩
    exact h
  have hne : ¬ ((i : Int) = -1) := by omega
  have hneg : ¬ ((i : Int) < 0) := by omega
  have hrange : ¬ (s.all_conns.length ≤ i) := by omega
  subst hfd
  cases hok : o.close_ok <;>
    simp [conn_data_handler, hidx, hne, hrd, IN_BUF_SIZE, hc, hopen, terminate, MAX_CONNS,
      hneg, hrange, Server.emit, hok]

/-- Witness of C5 (amended): end of file on the only connection of
`srv_b`. -/
theorem eof_termination_witness :
    ∃ s1, conn_data_handler P0 5 (received (ReadResult.bytes []) true) srv_b = some s1 ∧
      s1.trace = srv_b.trace ++ [Effect.close 5] ++
        (if (received (ReadResult.bytes []) true).close_ok then []
          else [Effect.report "terminate: close" []]) ∧
      ((received (ReadResult.bytes []) true).close_ok = true →
        s1.all_conns = srv_b.all_conns.set 0 { slot 5 ConnState.OPEN with state := ConnState.CLOSED } ∧
        s1.total_conns = srv_b.total_conns - 1) ∧
      ((received (ReadResult.bytes []) true).close_ok = false →
        s1.all_conns = srv_b.all_conns ∧ s1.total_conns = srv_b.total_conns) :=
  eof_termination P0 srv_b 5 (received (ReadResult.bytes []) true) 0 (slot 5 ConnState.OPEN)
    (by decide) (by decide) (by decide) (by intro j c1 hj; omega) rfl

/-- C7. The failing input: `accept` succeeds, the one-slot table is empty,
and `gethostbyaddr` returns `NULL` for the peer.  `new_conn_handler` then
dereferences `NULL` (`c_hostent->h_name`): the connection is not
registered. -/
theorem peer_lookup_failure_crashes :
    (accepted_unknown 5).new_fd ≠ -1 ∧
    (accepted_unknown 5).dns.gethostbyaddr (accepted_unknown 5).client = none ∧
    (init_server 1).all_conns.map (fun c => c.state) = [ConnState.CLOSED] ∧
    new_conn_handler P0 (accepted_unknown 5) (init_server 1) = none := by
  decide

/-! ## Lemmas on the event queue -/

theorem chain_lt {heap : List queue_element} {l : List Nat} :
    ∀ {p : Option Nat}, Chain heap l p → ∀ a ∈ l, a < heap.length := by
  induction l with
  | nil => intro p _ a ha; simp at ha
  | cons b l ih =>
    intro p h a ha
    obtain ⟨-, e, hb, hrest⟩ := h
    rcases List.mem_cons.mp ha with rfl | ha
    · rcases List.getElem?_eq_some.mp hb with ⟨hlt, -⟩
      exact hlt
    · exact ih hrest a ha

theorem chain_set {heap : List queue_element} {l : List Nat} {a : Nat} (e : queue_element)
    (ha : a ∉ l) : ∀ {p : Option Nat}, Chain heap l p → Chain (heap.set a e) l p := by
  induction l with
  | nil => intro p h; exact h
  | cons b l ih =>
    intro p h
    obtain ⟨hp, eb, hb, hrest⟩ := h
    have hne : a ≠ b := fun hab => ha (by simp [hab])
    have hl : a ∉ l := fun hal => ha (List.mem_cons_of_mem _ hal)
    refine ⟨hp, eb, ?_, ih hl hrest⟩
    rw [List.getElem?_set_ne hne]
    exact hb

theorem chain_append {heap : List queue_element} {l : List Nat} (x : queue_element) :
    ∀ {p : Option Nat}, Chain heap l p → Chain (heap ++ [x]) l p := by
  induction l with
  | nil => intro p h; exact h
  | cons b l ih =>
    intro p h
    obtain ⟨hp, eb, hb, hrest⟩ := h
    refine ⟨hp, eb, ?_, ih hrest⟩
    rcases List.getElem?_eq_some.mp hb with ⟨hlt, -⟩
    rw [List.getElem?_append_left hlt]
    exact hb

theorem chain_none {heap : List queue_element} {l : List Nat} (h : Chain heap l none) :
    l = [] := by
  cases l with
  | nil => rfl
  | cons b l =>
    obtain ⟨hp, -⟩ := h
    simp at hp

theorem chain_snoc {heap : List queue_element} {a t : Nat} {et : queue_element} :
    ∀ {q : List Nat} {p : Option Nat}, Chain heap q p → q.Nodup → q.getLast? = some t →
      a ∉ q → heap[t]? = some et → (∃ ea, heap[a]? = some ea ∧ ea.next = none) →
      Chain (heap.set t { et with next := some a }) (q ++ [a]) p := by
  intro q
  induction q with
  | nil => intro p _ _ hlast; simp at hlast
  | cons b q ih =>
    intro p h hnd hlast ha ht hnew
    obtain ⟨hp, eb, hb, hrest⟩ := h
    have hab : a ≠ b := fun hab => ha (by simp [hab])
    have haq : a ∉ q := fun haq => ha (List.mem_cons_of_mem _ haq)
    obtain ⟨hbq, hndq⟩ := List.nodup_cons.mp hnd
    cases q with
    | nil =>
      simp at hlast
      subst hlast
      have hrest0 : eb.next = none := hrest
      have het : eb = et := by
        rw [hb] at ht
        exact Option.some.inj ht
      subst het
      have hblt : b < heap.length := by
        rcases List.getElem?_eq_some.mp hb with ⟨hlt, -⟩
        exact hlt
      refine ⟨hp, { eb with next := some a }, ?_, ?_⟩
      · simp [List.getElem?_set_self hblt]
      · obtain ⟨ea, hea, hnone⟩ := hnew
        refine ⟨rfl, ea, ?_, hnone⟩
        rw [List.getElem?_set_ne (Ne.symm hab)]
        exact hea
    | cons c q =>
      have hlast1 : (c :: q).getLast? = some t := by simpa using hlast
      have htmem : t ∈ c :: q := List.mem_of_getLast?_eq_some hlast1
      have htb : t ≠ b := fun htb => hbq (htb ▸ htmem)
      refine ⟨hp, eb, ?_, ?_⟩
      · rw [List.getElem?_set_ne htb]
        exact hb
      · exact ih hrest hndq hlast1 haq ht hnew

theorem payload_set_ne {heap : List queue_element} {a x : Nat} (e : queue_element)
    (h : a ≠ x) : payload (heap.set a e) x = payload heap x := by
  simp [payload, List.getElem?_set_ne h]

theorem payload_set_next {heap : List queue_element} {t : Nat} {et : queue_element}
    (n : Option Nat) (ht : heap[t]? = some et) (x : Nat) :
    payload (heap.set t { et with next := n }) x = payload heap x := by
  by_cases hx : t = x
  · subst hx
    have hlt : t < heap.length := by
      rcases List.getElem?_eq_some.mp ht with ⟨hlt, -⟩
      exact hlt
    simp [payload, List.getElem?_set_self hlt, ht]
  · exact payload_set_ne _ hx

theorem payload_append {heap : List queue_element} {x : Nat} (e : queue_element)
    (h : x < heap.length) : payload (heap ++ [e]) x = payload heap x := by
  simp [payload, List.getElem?_append_left h]

theorem map_payload_congr {h1 h2 : List queue_element} {l : List Nat}
    (h : ∀ x ∈ l, payload h1 x = payload h2 x) : l.map (payload h1) = l.map (payload h2) :=
  List.map_congr_left h

theorem enqueue_after_pop {s s1 : QueueState} {a : Nat} {q : List Nat}
    {evs : List (EventType × Int)} {p1 : List Nat}
    (hpop : pop_queue_element s = some (a, s1))
    (hlive : Chain s1.heap q s1.queue_head) (hfree : Chain s1.heap p1 s1.stack_head)
    (hnd : (q ++ p1).Nodup) (haq : a ∉ q) (hap : a ∉ p1) (halt : a < s1.heap.length)
    (htail : q ≠ [] → s1.queue_tail = q.getLast?)
    (hall : q.length + p1.length + 1 = s1.heap.length)
    (hev : q.map (payload s1.heap) = evs.map some) (fd : Int) (ty : EventType) :
    ∃ s2, enqueue_datapending fd ty s = some s2 ∧
      QueueInv s2 (q ++ [a]) (evs ++ [(ty, fd)]) p1 ∧
      s2.heap.length = s1.heap.length ∧ s2.log = s1.log := by
  unfold enqueue_datapending
  rw [hpop]
  have hget : s1.heap[a]? = some s1.heap[a] := List.getElem?_eq_getElem halt
  simp only [hget]
  have hnewget : (s1.heap.set a { event_type := ty, fd := fd, next := none })[a]? =
      some { event_type := ty, fd := fd, next := none } := by
    simp [List.getElem?_set_self halt]
  have hndq : q.Nodup := hnd.of_append_left
  have hndp : p1.Nodup := hnd.of_append_right
  cases q with
  | nil =>
    have hh : s1.queue_head = none := hlive
    simp only [hh]
    refine ⟨_, rfl, ?_, by simp, rfl⟩
    constructor
    · exact ⟨rfl, _, hnewget, rfl⟩
    · exact chain_set _ hap hfree
    · simpa using ⟨hap, hndp⟩
    · intro _; rfl
    · simp at hall ⊢; omega
    · have hevs : evs = [] := by simpa using hev.symm
      subst hevs
      simp [payload, hnewget]
  | cons b q1 =>
    have hh : s1.queue_head = some b := hlive.1
    have htl := htail (by simp)
    cases hl : (b :: q1).getLast? with
    | none => simp at hl
    | some t =>
      have htmem : t ∈ b :: q1 := List.mem_of_getLast?_eq_some hl
      have hta : a ≠ t := fun hat => haq (hat ▸ htmem)
      have htlt : t < s1.heap.length := chain_lt hlive t htmem
      have htget : s1.heap[t]? = some s1.heap[t] := List.getElem?_eq_getElem htlt
      have htget1 : (s1.heap.set a { event_type := ty, fd := fd, next := none })[t]? =
          some s1.heap[t] := by
        rw [List.getElem?_set_ne hta]
        exact htget
      have htp : t ∉ p1 := fun htp => (List.nodup_append.mp hnd).2.2 htmem htp
      simp only [hh, htl, hl, htget1]
      refine ⟨_, rfl, ?_, by simp, rfl⟩
      constructor
      · have hl1 : Chain (s1.heap.set a { event_type := ty, fd := fd, next := none })
            (b :: q1) (some b) := hh ▸ chain_set _ haq hlive
        exact chain_snoc hl1 hndq hl haq htget1 ⟨_, hnewget, rfl⟩
      · exact chain_set _ htp (chain_set _ hap hfree)
      · have : ((b :: q1) ++ [a]) ++ p1 = (b :: q1) ++ a :: p1 := by simp
        rw [this]
        exact List.nodup_middle.mpr (List.nodup_cons.mpr ⟨by
          intro hmem
          rcases List.mem_append.mp hmem with hm | hm
          · exact haq hm
          · exact hap hm, hnd⟩)
      · intro _
        exact (List.getLast?_concat (b :: q1)).symm
      · simp at hall ⊢; omega
      · rw [List.map_append, List.map_append, ← hev]
        congr 1
        · apply map_payload_congr
          intro x hx
          rw [payload_set_next _ htget1]
          exact payload_set_ne _ (fun hax => haq (hax ▸ hx))
        · rw [List.map_singleton, List.map_singleton, payload_set_next _ htget1]
          simp [payload, hnewget]

theorem enqueue_inv {s : QueueState} {q : List Nat} {evs : List (EventType × Int)}
    {p : List Nat} (h : QueueInv s q evs p) (fd : Int) (ty : EventType) :
    ∃ s1 a, enqueue_datapending fd ty s = some s1 ∧
      QueueInv s1 (q ++ [a]) (evs ++ [(ty, fd)]) p.tail ∧
      s1.heap.length = (if p = [] then s.heap.length + 1 else s.heap.length) ∧
      s1.log = s.log := by
  cases p with
  | nil =>
    have hsh : s.stack_head = none := h.free
    have hpop : pop_queue_element s = some (s.heap.length,
        { s with heap := s.heap ++ [fresh_node], queue_length := s.queue_length + 1 }) := by
      simp [pop_queue_element, hsh]
    have hall := h.all
    have hfresh : s.heap.length ∉ q := fun hm => absurd (chain_lt h.live _ hm) (by omega)
    have hfree1 : Chain (s.heap ++ [fresh_node]) [] s.stack_head := hsh
    have hnd1 : (q ++ ([] : List Nat)).Nodup := h.nodup
    obtain ⟨s2, h2, hinv, hlen, hlog⟩ := enqueue_after_pop hpop
      (chain_append fresh_node h.live) hfree1 hnd1 hfresh
      (by simp) (by simp) h.tail (by simp at hall ⊢; omega)
      (by
        rw [← h.events]
        apply map_payload_congr
        intro x hx
        exact payload_append _ (chain_lt h.live _ hx)) fd ty
    exact ⟨s2, _, h2, hinv, by simpa using hlen, hlog⟩
  | cons b p1 =>
    obtain ⟨hsh, eb, hb, hrest⟩ := h.free
    have hpop : pop_queue_element s = some (b,
        { s with stack_head := eb.next, queue_length := s.queue_length + 1 }) := by
      simp [pop_queue_element, hsh, hb]
    have hnd := h.nodup
    have hmid := List.nodup_middle.mp hnd
    obtain ⟨hbn, hnd1⟩ := List.nodup_cons.mp hmid
    have hall := h.all
    obtain ⟨s2, h2, hinv, hlen, hlog⟩ := enqueue_after_pop hpop
      h.live hrest hnd1 (fun hm => hbn (List.mem_append_left _ hm))
      (fun hm => hbn (List.mem_append_right _ hm))
      (chain_lt h.free b (by simp)) h.tail (by simp at hall ⊢; omega) h.events fd ty
    exact ⟨s2, _, h2, hinv, by simpa using hlen, hlog⟩

theorem dequeue_inv {s : QueueState} {q : List Nat} {e : EventType × Int}
    {evs : List (EventType × Int)} {p : List Nat} (h : QueueInv s q (e :: evs) p) :
    queue_top s = some e ∧ s.queue_head ≠ none ∧
    ∃ s1 a q1, q = a :: q1 ∧ dequeue_top_event s = some s1 ∧ QueueInv s1 q1 evs (a :: p) ∧
      s1.heap.length = s.heap.length ∧ s1.log = s.log := by
  cases q with
  | nil =>
    have := h.events
    simp at this
  | cons a q1 =>
    obtain ⟨hh, ea, ha, hrest⟩ := h.live
    have hev := h.events
    simp only [List.map_cons, List.cons.injEq] at hev
    have hnd := h.nodup
    obtain ⟨han, hnd1⟩ := List.nodup_cons.mp hnd
    have haq : a ∉ q1 := fun hm => han (List.mem_append_left _ hm)
    have hap : a ∉ p := fun hm => han (List.mem_append_right _ hm)
    have halt : a < s.heap.length := chain_lt h.live a (by simp)
    refine ⟨?_, by simp [hh], ?_⟩
    · simp only [queue_top, hh]
      exact hev.1
    · refine ⟨{ s with
          queue_head := ea.next,
          heap := s.heap.set a { ea with next := s.stack_head },
          stack_head := some a,
          queue_length := s.queue_length - 1 }, a, q1, rfl, ?_, ?_, ?_, ?_⟩
      · simp [dequeue_top_event, hh, ha, push_queue_element]
      · constructor
        · exact chain_set _ haq hrest
        · exact ⟨rfl, { ea with next := s.stack_head },
            by simp [List.getElem?_set_self halt], chain_set _ hap h.free⟩
        · exact List.nodup_middle.mpr hnd
        · intro hne
          have := h.tail (by simp)
          rw [this]
          cases q1 with
          | nil => exact absurd rfl hne
          | cons c q2 => simp
        · have := h.all
          simp at this ⊢
          omega
        · rw [← hev.2]
          apply map_payload_congr
          intro x hx
          exact payload_set_ne _ (fun hax => haq (hax ▸ hx))
      · simp
      · rfl

theorem dequeue_empty {s : QueueState} {p : List Nat} (h : QueueInv s [] [] p) :
    ∃ s1, dequeue_top_event s = some s1 ∧ QueueInv s1 [] [] p ∧
      s1.heap.length = s.heap.length := by
  have hh : s.queue_head = none := h.live
  refine ⟨{ s with
    log := s.log ++ ["dequeue_top_event: tried to dequeue from empty queue!\n"] },
    by simp [dequeue_top_event, hh], ?_, rfl⟩
  exact ⟨h.live, h.free, h.nodup, h.tail, h.all, h.events⟩

theorem queueInv_events_length {s : QueueState} {q : List Nat} {evs : List (EventType × Int)}
    {p : List Nat} (h : QueueInv s q evs p) : q.length = evs.length := by
  have := congrArg List.length h.events
  simpa using this

theorem init_queue_inv : QueueInv init_queue [] [] [] := by
  constructor <;> simp [init_queue, Chain]

theorem walk_chain {heap : List queue_element} {l : List Nat} :
    ∀ {p : Option Nat} {fuel : Nat}, Chain heap l p → l.length ≤ fuel → walk heap fuel p = l := by
  induction l with
  | nil =>
    intro p fuel h _
    have hp : p = none := h
    subst hp
    cases fuel <;> rfl
  | cons b l ih =>
    intro p fuel h hf
    obtain ⟨hp, eb, hb, hrest⟩ := h
    subst hp
    cases fuel with
    | zero => simp at hf
    | succ fuel =>
      simp only [walk, hb]
      rw [ih hrest (by simpa using hf)]

theorem live_nodes_eq {s : QueueState} {q : List Nat} {evs : List (EventType × Int)}
    {p : List Nat} (h : QueueInv s q evs p) : live_nodes s = q :=
  walk_chain h.live (by have := h.all; omega)

theorem free_nodes_eq {s : QueueState} {q : List Nat} {evs : List (EventType × Int)}
    {p : List Nat} (h : QueueInv s q evs p) : free_nodes s = p :=
  walk_chain h.free (by have := h.all; omega)

theorem live_count_eq {s : QueueState} {q : List Nat} {evs : List (EventType × Int)}
    {p : List Nat} (h : QueueInv s q evs p) : live_count s = evs.length := by
  rw [live_count, live_nodes_eq h, queueInv_events_length h]

theorem filterMap_of_map_some {α β : Type} (f : α → Option β) :
    ∀ (l : List α) (r : List β), l.map f = r.map some → l.filterMap f = r := by
  intro l
  induction l with
  | nil =>
    intro r h
    cases r with
    | nil => rfl
    | cons y r => simp at h
  | cons x l ih =>
    intro r h
    cases r with
    | nil => simp at h
    | cons y r =>
      simp only [List.map_cons, List.cons.injEq] at h
      rw [List.filterMap_cons, h.1, ih r h.2]

theorem queue_events_eq {s : QueueState} {q : List Nat} {evs : List (EventType × Int)}
    {p : List Nat} (h : QueueInv s q evs p) : queue_events s = evs := by
  rw [queue_events, live_nodes_eq h]
  exact filterMap_of_map_some _ _ _ h.events

theorem queue_step_ok (op : QueueOp) {s : QueueState} (h : QueueOk s) :
    ∃ s1, queue_step op s = some s1 ∧ QueueOk s1 ∧
      allocations s1 ≤ max (allocations s) (live_count s1) := by
  obtain ⟨q, evs, p, hinv⟩ := h
  cases op with
  | enq fd ty =>
    obtain ⟨s1, a, h1, hinv1, hlen, -⟩ := enqueue_inv hinv fd ty
    refine ⟨s1, h1, ⟨_, _, _, hinv1⟩, ?_⟩
    rw [live_count_eq hinv1]
    simp only [allocations]
    by_cases hp : p = []
    · subst hp
      have hall := hinv.all
      have hq := queueInv_events_length hinv
      simp at hlen hall ⊢
      omega
    · simp [hp] at hlen
      omega
  | deq =>
    cases evs with
    | nil =>
      have hq : q = [] := List.length_eq_zero.mp (queueInv_events_length hinv)
      subst hq
      obtain ⟨s1, h1, hinv1, hlen⟩ := dequeue_empty hinv
      exact ⟨s1, h1, ⟨_, _, _, hinv1⟩, by simp only [allocations]; omega⟩
    | cons e evs =>
      obtain ⟨-, -, s1, a, q1, -, h1, hinv1, hlen, -⟩ := dequeue_inv hinv
      exact ⟨s1, h1, ⟨_, _, _, hinv1⟩, by simp only [allocations]; omega⟩

theorem run_queue_ok (ops : List QueueOp) :
    ∀ {s : QueueState}, QueueOk s → ∃ s1 m, run_queue ops s = some s1 ∧ QueueOk s1 ∧
      high_water ops s = some m ∧ live_count s ≤ m ∧
      allocations s1 ≤ max (allocations s) m := by
  induction ops with
  | nil =>
    intro s h
    exact ⟨s, live_count s, rfl, h, rfl, le_refl _, le_max_left _ _⟩
  | cons op ops ih =>
    intro s h
    obtain ⟨s1, h1, hok1, halloc⟩ := queue_step_ok op h
    obtain ⟨s2, m, h2, hok2, hm, hlive, halloc2⟩ := ih hok1
    refine ⟨s2, max (live_count s) m, ?_, hok2, ?_, le_max_left _ _, ?_⟩
    · simp only [run_queue, h1, h2]
    · simp only [high_water, h1, hm, Option.map_some']
    · simp only [le_max_iff] at halloc halloc2 ⊢
      omega

theorem init_queue_ok : QueueOk init_queue := ⟨[], [], [], init_queue_inv⟩

theorem reachable_queue_ok {ops : List QueueOp} {s : QueueState}
    (h : run_queue ops init_queue = some s) : QueueOk s := by
  obtain ⟨s1, m, h1, hok, -⟩ := run_queue_ok ops init_queue_ok
  rw [h1] at h
  exact Option.some.inj h ▸ hok

theorem enqueue_all_inv (es : List (EventType × Int)) :
    ∀ {s : QueueState} {q : List Nat} {evs : List (EventType × Int)} {p : List Nat},
      QueueInv s q evs p →
      ∃ s1 q1 p1, enqueue_all es s = some s1 ∧ QueueInv s1 q1 (evs ++ es) p1 := by
  induction es with
  | nil =>
    intro s q evs p h
    exact ⟨s, q, p, rfl, by simpa using h⟩
  | cons e es ih =>
    intro s q evs p h
    obtain ⟨s1, a, h1, hinv1, -, -⟩ := enqueue_inv h e.2 e.1
    obtain ⟨s2, q2, p2, h2, hinv2⟩ := ih hinv1
    refine ⟨s2, q2, p2, ?_, by simpa using hinv2⟩
    simp only [enqueue_all, h1, h2]

theorem drain_inv (evs : List (EventType × Int)) :
    ∀ {s : QueueState} {q : List Nat} {p : List Nat},
      QueueInv s q evs p → drain evs.length s = some evs := by
  induction evs with
  | nil => intro s q p _; rfl
  | cons e evs ih =>
    intro s q p h
    obtain ⟨htop, -, s1, a, q1, -, h1, hinv1, -, -⟩ := dequeue_inv h
    simp only [List.length_cons, drain, htop, h1, ih hinv1, Option.map_some']

/-! ## Theorems on the event queue -/

/-- C3. Queue FIFO law: when the live queue is empty (in any state reached
by enqueues and dequeues from the initial one), enqueueing the events `evs`
with `enqueue_datapending` succeeds, and dequeueing as many times shows at
`queue_head`, before each dequeue, exactly the events of `evs` in the order
they were enqueued, kind and descriptor unchanged. -/
theorem queue_fifo (ops : List QueueOp) (s : QueueState) (evs : List (EventType × Int))
    (h : run_queue ops init_queue = some s) (hempty : s.queue_head = none) :
    ∃ s1, enqueue_all evs s = some s1 ∧ drain evs.length s1 = some evs := by
  obtain ⟨q, evs0, p, hinv⟩ := reachable_queue_ok h
  have hq : q = [] := chain_none (hempty ▸ hinv.live)
  subst hq
  have hevs0 : evs0 = [] := by
    have := queueInv_events_length hinv
    exact List.length_eq_zero.mp this.symm
  subst hevs0
  obtain ⟨s1, q1, p1, h1, hinv1⟩ := enqueue_all_inv evs hinv
  exact ⟨s1, h1, drain_inv evs (by simpa using hinv1)⟩

/-- Witness of C3: after the run `ops_a` the queue is empty and three nodes
are in the free pool; three events go in and come out in order. -/
theorem queue_fifo_witness :
    run_queue ops_a init_queue = some queue_a ∧ queue_a.queue_head = none ∧
    ∃ s1, enqueue_all events_a queue_a = some s1 ∧
      drain events_a.length s1 = some events_a :=
  ⟨by decide, by decide, queue_fifo ops_a queue_a events_a (by decide) (by decide)⟩

/-- C4. Queue recycling: every run of `enqueue_datapending` and
`dequeue_top_event` calls from the empty queue and empty free pool succeeds,
and the number of nodes it obtained from `malloc` is at most the largest
number of events that were in the live queue at one time during the run. -/
theorem queue_recycling (ops : List QueueOp) :
    ∃ s m, run_queue ops init_queue = some s ∧ high_water ops init_queue = some m ∧
      allocations s ≤ m := by
  obtain ⟨s, m, h1, -, hm, -, halloc⟩ := run_queue_ok ops init_queue_ok
  refine ⟨s, m, h1, hm, ?_⟩
  simpa [allocations, init_queue] using halloc

/-! ## The batch of `process_queue` -/

theorem dequeue_n_inv (n : Nat) :
    ∀ {s : QueueState} {q : List Nat} {evs : List (EventType × Int)} {p : List Nat},
      QueueInv s q evs p → n ≤ evs.length →
      ∃ s1 q1 p1, dequeue_n n s = some s1 ∧ QueueInv s1 q1 (evs.drop n) p1 := by
  induction n with
  | zero =>
    intro s q evs p h _
    exact ⟨s, q, p, rfl, by simpa using h⟩
  | succ n ih =>
    intro s q evs p h hn
    cases evs with
    | nil => simp at hn
    | cons e evs =>
      obtain ⟨-, -, s1, a, q1, -, h1, hinv1, -, -⟩ := dequeue_inv h
      obtain ⟨s2, q2, p2, h2, hinv2⟩ := ih hinv1 (by simpa using hn)
      exact ⟨s2, q2, p2, by simp only [dequeue_n, h1, h2], by simpa using hinv2⟩

theorem handle_top_event_new_conn (P : Params) (o : Outcome) (w : World) {q : List Nat}
    {fd : Int} {evs : List (EventType × Int)} {p : List Nat}
    (h : QueueInv w.queue q ((EventType.NEW_CONN, fd) :: evs) p) :
    handle_top_event P o w =
      (new_conn_handler P o w.srv).map (fun srv1 => ({ w with srv := srv1 } : World)) := by
  obtain ⟨-, -, s1, a, q1, hq, -, -, -, -⟩ := dequeue_inv h
  subst hq
  obtain ⟨hh, ea, ha, -⟩ := h.live
  have hev := h.events
  simp only [List.map_cons, List.cons.injEq, payload, ha, Option.map_some', Option.some.injEq,
    Prod.mk.injEq] at hev
  unfold handle_top_event
  simp only [hh, ha, hev.1.1]
  cases new_conn_handler P o w.srv <;> rfl

theorem handle_top_event_conn (P : Params) (o : Outcome) (w : World) {q : List Nat}
    {fd : Int} {evs : List (EventType × Int)} {p : List Nat}
    (h : QueueInv w.queue q ((EventType.CONN, fd) :: evs) p) :
    handle_top_event P o w =
      (conn_data_handler P fd o w.srv).map (fun srv1 => ({ w with srv := srv1 } : World)) := by
  obtain ⟨-, -, s1, a, q1, hq, -, -, -, -⟩ := dequeue_inv h
  subst hq
  obtain ⟨hh, ea, ha, -⟩ := h.live
  have hev := h.events
  simp only [List.map_cons, List.cons.injEq, payload, ha, Option.map_some', Option.some.injEq,
    Prod.mk.injEq] at hev
  unfold handle_top_event
  simp only [hh, ha, hev.1.1, hev.1.2]
  cases conn_data_handler P fd o w.srv <;> rfl

theorem process_queue_loop_eq (P : Params) (env : Nat → Outcome) (k : Nat) :
    ∀ (i : Nat) (w : World) {q : List Nat} {evs : List (EventType × Int)} {p : List Nat},
      QueueInv w.queue q evs p →
      process_queue_loop P env k i w =
        (handle_events P env i (evs.take k) w.srv).bind (fun srv1 =>
          (dequeue_n (min evs.length k) w.queue).map (fun q1 =>
            ({ srv := srv1, queue := q1, conn_fd := w.conn_fd } : World))) := by
  induction k with
  | zero =>
    intro i w q evs p _
    simp [process_queue_loop, handle_events, dequeue_n]
  | succ k ih =>
    intro i w q evs p h
    cases evs with
    | nil =>
      have hq : q = [] := List.length_eq_zero.mp (queueInv_events_length h)
      subst hq
      have hh : w.queue.queue_head = none := h.live
      simp [process_queue_loop, hh, handle_events, dequeue_n]
    | cons e evs =>
      obtain ⟨-, -, s1, a, q1, hq, h1, hinv1, -, -⟩ := dequeue_inv h
      subst hq
      have hh : w.queue.queue_head = some a := h.live.1
      obtain ⟨ty, fd⟩ := e
      cases ty with
      | NEW_CONN =>
        have hte := handle_top_event_new_conn P (env i) w h
        cases hd : new_conn_handler P (env i) w.srv with
        | none =>
          simp [process_queue_loop, hh, hte, hd, handle_events]
        | some srv1 =>
          have hrec := ih (i + 1) { srv := srv1, queue := s1, conn_fd := w.conn_fd } hinv1
          simp only [process_queue_loop, hh, hte, hd, Option.map_some', h1, hrec,
            List.take_succ_cons, handle_events, Option.some_bind, List.length_cons,
            Nat.succ_min_succ, dequeue_n]
      | CONN =>
        have hte := handle_top_event_conn P (env i) w h
        cases hd : conn_data_handler P fd (env i) w.srv with
        | none =>
          simp [process_queue_loop, hh, hte, hd, handle_events]
        | some srv1 =>
          have hrec := ih (i + 1) { srv := srv1, queue := s1, conn_fd := w.conn_fd } hinv1
          simp only [process_queue_loop, hh, hte, hd, Option.map_some', h1, hrec,
            List.take_succ_cons, handle_events, Option.some_bind, List.length_cons,
            Nat.succ_min_succ, dequeue_n]

/-- C9. Per-tick batch cap: when the queue holds the events `evs`, one call
of `process_queue` does to the handler globals what calling, for the first
`min n MAX_EVENTS_TO_PROCESS` events in queue order, `new_conn_handler` for a
`NEW_CONN` event and `conn_data_handler` with the event's descriptor for a
`CONN` event does; it dequeues that many nodes and leaves the remaining
events in the queue in their order.  For the event at the head,
`handle_top_event` is the call of `new_conn_handler` when its kind is
`NEW_CONN` and of `conn_data_handler` with its descriptor when its kind is
`CONN`. -/
theorem batch_cap (P : Params) (env : Nat → Outcome) (ops : List QueueOp) (w : World)
    (hq : run_queue ops init_queue = some w.queue) :
    ∃ q1,
      dequeue_n (min (queue_events w.queue).length P.MAX_EVENTS_TO_PROCESS) w.queue = some q1 ∧
      queue_events q1 = (queue_events w.queue).drop P.MAX_EVENTS_TO_PROCESS ∧
      process_queue P env w =
        (handle_events P env 0 ((queue_events w.queue).take P.MAX_EVENTS_TO_PROCESS) w.srv).map
          (fun srv1 => ({ srv := srv1, queue := q1, conn_fd := w.conn_fd } : World)) ∧
      (∀ (fd : Int) (rest : List (EventType × Int)),
        queue_events w.queue = (EventType.NEW_CONN, fd) :: rest →
        handle_top_event P (env 0) w =
          (new_conn_handler P (env 0) w.srv).map
            (fun srv1 => ({ w with srv := srv1 } : World))) ∧
      (∀ (fd : Int) (rest : List (EventType × Int)),
        queue_events w.queue = (EventType.CONN, fd) :: rest →
        handle_top_event P (env 0) w =
          (conn_data_handler P fd (env 0) w.srv).map
            (fun srv1 => ({ w with srv := srv1 } : World))) := by
  obtain ⟨q, evs, p, hinv⟩ := reachable_queue_ok hq
  rw [queue_events_eq hinv]
  obtain ⟨s1, q1, p1, h1, hinv1⟩ :=
    dequeue_n_inv (min evs.length P.MAX_EVENTS_TO_PROCESS) hinv (Nat.min_le_left _ _)
  refine ⟨s1, h1, ?_, ?_, ?_, ?_⟩
  · rw [queue_events_eq hinv1]
    rcases Nat.le_total evs.length P.MAX_EVENTS_TO_PROCESS with hle | hle
    · rw [Nat.min_eq_left hle, List.drop_of_length_le hle, List.drop_of_length_le (le_refl _)]
    · rw [Nat.min_eq_right hle]
  · rw [process_queue, process_queue_loop_eq P env _ 0 w hinv, h1]
    cases handle_events P env 0 (evs.take P.MAX_EVENTS_TO_PROCESS) w.srv <;> rfl
  · intro fd rest hev
    subst hev
    exact handle_top_event_new_conn P (env 0) w hinv
  · intro fd rest hev
    subst hev
    exact handle_top_event_conn P (env 0) w hinv

/-- Witness of C9: three events are queued and the batch size is two; the
accept and one data event are handled, the third event stays queued. -/
theorem batch_cap_witness :
    run_queue ops_c init_queue = some world_c.queue ∧
    queue_events world_c.queue =
      [(EventType.NEW_CONN, 3), (EventType.CONN, 5), (EventType.CONN, 5)] ∧
    (process_queue P0 env_c world_c).map
        (fun w => (w.srv.all_conns.map (fun c => (c.fd, c.state)), w.srv.total_conns,
          queue_events w.queue)) =
      some ([(9, ConnState.OPEN), (5, ConnState.OPEN)], 2, [(EventType.CONN, 5)]) ∧
    ∃ q1,
      dequeue_n (min (queue_events world_c.queue).length P0.MAX_EVENTS_TO_PROCESS)
        world_c.queue = some q1 ∧
      queue_events q1 = (queue_events world_c.queue).drop P0.MAX_EVENTS_TO_PROCESS ∧
      process_queue P0 env_c world_c =
        (handle_events P0 env_c 0
          ((queue_events world_c.queue).take P0.MAX_EVENTS_TO_PROCESS) world_c.srv).map
          (fun srv1 => ({ srv := srv1, queue := q1, conn_fd := world_c.conn_fd } : World)) ∧
      (∀ (fd : Int) (rest : List (EventType × Int)),
        queue_events world_c.queue = (EventType.NEW_CONN, fd) :: rest →
        handle_top_event P0 (env_c 0) world_c =
          (new_conn_handler P0 (env_c 0) world_c.srv).map
            (fun srv1 => ({ world_c with srv := srv1 } : World))) ∧
      (∀ (fd : Int) (rest : List (EventType × Int)),
        queue_events world_c.queue = (EventType.CONN, fd) :: rest →
        handle_top_event P0 (env_c 0) world_c =
          (conn_data_handler P0 fd (env_c 0) world_c.srv).map
            (fun srv1 => ({ world_c with srv := srv1 } : World))) :=
  ⟨by decide, by decide, by decide, batch_cap P0 env_c ops_c world_c (by decide)⟩

/-- The batch of the witness: the accept and one data event are handled, the
third event stays queued. -/
theorem batch_cap_example :
    (process_queue P0 env_c world_c).map
        (fun w => (w.srv.all_conns.map (fun c => (c.fd, c.state)), w.srv.total_conns,
          queue_events w.queue)) =
      some ([(9, ConnState.OPEN), (5, ConnState.OPEN)], 2, [(EventType.CONN, 5)]) := by
  decide

/-! ## Readiness translation and forward lookup -/

/-- C8. The failing input: slot 0 is OPEN with descriptor 5 and slot 1 is
CLOSED with the stale descriptor 5 (a state reached by `calls_d`); `select`
reports descriptor 5 ready.  `process_io` tests `FD_ISSET` on every slot
without looking at its state and enqueues two `CONN` events for descriptor 5,
one of them on behalf of the CLOSED slot. -/
theorem stale_descriptor_event :
    run P0 calls_d (init_server 2) = some srv_d ∧
    srv_d.all_conns.map (fun c => (c.fd, c.state)) =
      [(5, ConnState.OPEN), (5, ConnState.CLOSED)] ∧
    (process_io 1 [5] world_d).map (fun w => queue_events w.queue) =
      some [(EventType.CONN, 5), (EventType.CONN, 5)] := by
  decide

/-- The response of `ip_by_name` when the line fits in `out_buf`: one lookup
and one write of the name, a space, the dotted address or `0`, and a
newline; the cursor advance is header size + name length + 1. -/
theorem ip_by_name_response (R : Resolver) (s : Server) (i off : Nat) (name : List Char)
    (c : connection) (hname : cstr s.buf (off + SIZEOF_INT) = some name)
    (hc : s.all_conns[i]? = some c) (hfit : name.length + 18 ≤ OUT_BUF_SIZE) :
    ip_by_name R i off s = some (SIZEOF_INT + name.length + 1,
      { s with trace := s.trace ++ [Effect.gethostbyname name,
          Effect.write c.fd
            (match R.gethostbyname name with
             | none => name ++ " 0\n".toList
             | some a => name ++ [' '] ++ inet_ntoa a ++ ['\n'])] }) := by
  have hdig : ∀ n : Nat, n < 256 → (Nat.toDigits 10 n).length ≤ 3 := by
    intro n hn
    interval_cases n <;> decide
  have hoct : ∀ n : Nat, (Nat.toDigits 10 (n % 256)).length ≤ 3 :=
    fun n => hdig _ (Nat.mod_lt _ (by decide))
  unfold ip_by_name
  simp only [hname]
  cases hr : R.gethostbyname name with
  | none =>
    have hlen : (name ++ " 0\n".toList).length + 1 ≤ OUT_BUF_SIZE := by
      simp at hfit ⊢; omega
    simp only [respond, if_pos hlen, Server.emit, hc, List.append_assoc, List.singleton_append,
      List.nil_append, List.cons_append]
  | some a =>
    have hlen : (name ++ [' '] ++ inet_ntoa a ++ ['\n']).length + 1 ≤ OUT_BUF_SIZE := by
      have h1 := hoct a.a
      have h2 := hoct a.b
      have h3 := hoct a.c
      have h4 := hoct a.d
      simp [inet_ntoa] at hfit ⊢
      omega
    have hlen2 : (name ++ ' ' :: (inet_ntoa a ++ ['\n'])).length + 1 ≤ OUT_BUF_SIZE := by
      simpa only [List.append_assoc, List.singleton_append, List.nil_append,
        List.cons_append] using hlen
    simp only [respond, Server.emit, hc, List.append_assoc, List.singleton_append,
      List.nil_append, List.cons_append, if_pos hlen2]

/-- The request `IP_BY_NAME("localhost")` with a resolver that maps
`localhost` to 127.0.0.1 is answered by the line `localhost 127.0.0.1`. -/
theorem ip_by_name_localhost :
    (ip_by_name dns0 0 0 { srv_b with buf := msg_localhost ++ List.replicate 66 NUL }).map
      (fun r => (r.1, r.2.trace.drop 1)) =
    some (14, [Effect.gethostbyname "localhost".toList,
      Effect.write 5 "localhost 127.0.0.1\n".toList]) := by
  decide

/-- C10. The failing input: the request `IP_BY_NAME(long_name)`, 75 bytes,
with a 70-character name that resolves to 127.0.0.1.  The response line and
its NUL take 82 bytes, `sprintf` writes them into the 80-byte `out_buf`:
the call has undefined behaviour instead of writing the line. -/
theorem long_name_overflows_out_buf :
    msg_long.length = 75 ∧
    cstr srv_long.buf SIZEOF_INT = some long_name ∧
    dns_long.gethostbyname long_name = some ⟨127, 0, 0, 1⟩ ∧
    (long_name ++ " 127.0.0.1\n".toList).length + 1 = 82 ∧
    srv_long.all_conns[0]? = some (slot 5 ConnState.OPEN) ∧
    ip_by_name dns_long 0 0 srv_long = none ∧
    conn_data_handler P0 5 received_long srv_b = none := by
  decide

/-! ## Frame of `terminate` and `conn_data_handler` -/

theorem terminate_frame (i : Int) (ok : Bool) (s : Server) :
    (terminate i ok s).all_conns.length = s.all_conns.length ∧
    (∀ j : Nat, (j : Int) ≠ i → (terminate i ok s).all_conns[j]? = s.all_conns[j]?) ∧
    (∀ j : Nat, ((terminate i ok s).all_conns[j]?).map (fun c => c.fd) =
      (s.all_conns[j]?).map (fun c => c.fd)) ∧
    ((terminate i ok s).total_conns = s.total_conns ∨
      (terminate i ok s).total_conns = s.total_conns - 1) ∧
    (terminate i ok s).buf = s.buf := by
  unfold terminate
  split
  · exact ⟨rfl, fun _ _ => rfl, fun _ => rfl, Or.inl rfl, rfl⟩
  · rename_i hrange
    split
    · exact ⟨rfl, fun _ _ => rfl, fun _ => rfl, Or.inl rfl, rfl⟩
    · rename_i c hc
      split
      · exact ⟨rfl, fun _ _ => rfl, fun _ => rfl, Or.inl rfl, rfl⟩
      · cases ok with
        | false => exact ⟨rfl, fun _ _ => rfl, fun _ => rfl, Or.inl rfl, rfl⟩
        | true =>
          have hi : (i.toNat : Int) = i := Int.toNat_of_nonneg (by omega)
          refine ⟨by simp [Server.emit], ?_, ?_, Or.inr rfl, rfl⟩
          · intro j hj
            have hne : i.toNat ≠ j := fun h => hj (by omega)
            simp [Server.emit, List.getElem?_set_ne hne]
          · intro j
            by_cases hj : i.toNat = j
            · subst hj
              have hlt : i.toNat < s.all_conns.length := by
                rcases List.getElem?_eq_some.mp hc with ⟨h, -⟩
                exact h
              simp [Server.emit, List.getElem?_set_self hlt, hc]
            · simp [Server.emit, List.getElem?_set_ne hj]

theorem conn_data_handler_cases {P : Params} {fd : Int} {o : Outcome} {s s1 : Server}
    (h : conn_data_handler P fd o s = some s1) :
    SameTable s s1 ∨
    (index_by_fd s fd ≠ -1 ∧ o.rd ≠ ReadResult.would_block ∧
      ∃ s2, s2.all_conns = s.all_conns ∧ s2.total_conns = s.total_conns ∧
        s1 = terminate (index_by_fd s fd) o.close_ok s2) := by
  unfold conn_data_handler at h
  simp only at h
  split at h
  · simp at h; subst h; exact Or.inl ⟨rfl, rfl⟩
  · rename_i hidx
    split at h
    · simp at h; subst h; exact Or.inl ⟨rfl, rfl⟩
    · rename_i hrd
      simp at h
      exact Or.inr ⟨hidx, by simp [hrd],
        s.emit (Effect.report "conn_data_handler: read" []), rfl, rfl, h.symm⟩
    · rename_i data hrd
      split at h
      · simp at h
        refine Or.inr ⟨hidx, by simp [hrd], _, ?_, ?_, h.symm⟩
        · split
          · split <;> rfl
          · rfl
        · split
          · split <;> rfl
          · rfl
      · have b := parse_loop_table _ _ _ _ h
        exact Or.inl ⟨b.1, b.2⟩

/-- Frame of the calls that return: whenever `conn_data_handler(fd)` returns,
whatever `read` produced, the table has the same slots, every slot other than the one
`index_by_fd` selects for `fd` is unchanged, no slot's descriptor changes,
and `total_conns` is unchanged or one less; when no OPEN slot owns `fd`, or
`read` would block, the table and the counter are unchanged.  The call does
return when no OPEN slot owns `fd`, when `read` would block or fails, and at
end of file. -/
theorem error_isolation (P : Params) (s : Server) (fd : Int) (o : Outcome) :
    (∀ s1, conn_data_handler P fd o s = some s1 →
      s1.all_conns.length = s.all_conns.length ∧
      (∀ j : Nat, (j : Int) ≠ index_by_fd s fd → s1.all_conns[j]? = s.all_conns[j]?) ∧
      (∀ j : Nat, (s1.all_conns[j]?).map (fun c => c.fd) =
        (s.all_conns[j]?).map (fun c => c.fd)) ∧
      (s1.total_conns = s.total_conns ∨ s1.total_conns = s.total_conns - 1) ∧
      (index_by_fd s fd = -1 ∨ o.rd = ReadResult.would_block →
        s1.all_conns = s.all_conns ∧ s1.total_conns = s.total_conns)) ∧
    (index_by_fd s fd = -1 ∨ o.rd = ReadResult.would_block ∨ o.rd = ReadResult.failed ∨
        o.rd = ReadResult.bytes [] →
      ∃ s1, conn_data_handler P fd o s = some s1) := by
  constructor
  · intro s1 h
    rcases conn_data_handler_cases h with hsame | ⟨hidx, hrd, s2, h2a, h2t, rfl⟩
    · refine ⟨by rw [hsame.1], fun j _ => by rw [hsame.1], fun j => by rw [hsame.1],
        Or.inl hsame.2, fun _ => hsame⟩
    · obtain ⟨hlen, hother, hfd, htot, -⟩ := terminate_frame (index_by_fd s fd) o.close_ok s2
      rw [h2a] at hlen hother hfd
      rw [h2t] at htot
      refine ⟨hlen, hother, hfd, htot, ?_⟩
      rintro (h | h)
      · exact absurd h hidx
      · exact absurd h hrd
  · intro h
    unfold conn_data_handler
    by_cases hidx : index_by_fd s fd = -1
    · simp [hidx]
    · rcases h with h | h | h | h
      · exact absurd h hidx
      · simp [hidx, h]
      · simp [hidx, h]
      · simp [hidx, h]

/-- The frame of `error_isolation` when `read` fails on descriptor 5 of
`srv_a`. -/
theorem error_isolation_example :
    (∀ s1, conn_data_handler P0 5 (received ReadResult.failed true) srv_a = some s1 →
      s1.all_conns.length = srv_a.all_conns.length ∧
      (∀ j : Nat, (j : Int) ≠ index_by_fd srv_a 5 → s1.all_conns[j]? = srv_a.all_conns[j]?) ∧
      (∀ j : Nat, (s1.all_conns[j]?).map (fun c => c.fd) =
        (srv_a.all_conns[j]?).map (fun c => c.fd)) ∧
      (s1.total_conns = srv_a.total_conns ∨ s1.total_conns = srv_a.total_conns - 1) ∧
      (index_by_fd srv_a 5 = -1 ∨ (received ReadResult.failed true).rd = ReadResult.would_block →
        s1.all_conns = srv_a.all_conns ∧ s1.total_conns = srv_a.total_conns)) ∧
    ∃ s1, conn_data_handler P0 5 (received ReadResult.failed true) srv_a = some s1 :=
  ⟨(error_isolation P0 srv_a 5 (received ReadResult.failed true)).1,
   (error_isolation P0 srv_a 5 (received ReadResult.failed true)).2 (Or.inr (Or.inr (Or.inl rfl)))⟩

/-- C13. The failing input: descriptors 4 and 5 are OPEN (slots 0 and 1), and
`read` on descriptor 5 returns the 75 bytes of the request
`IP_BY_NAME(long_name)`, whose 70-character name resolves to 127.0.0.1.  The
response line and its NUL take 82 bytes and `sprintf` writes them into the
80-byte static `out_buf`: the two bytes beyond it land in whatever object
follows, so the call has undefined behaviour and nothing bounds its effect to
slot 1, where the table must stay as it is. -/
theorem data_read_overflows_out_buf :
    run P0 calls_f (init_server 2) = some srv_f ∧
    srv_f.all_conns.map (fun c => (c.fd, c.state)) =
      [(4, ConnState.OPEN), (5, ConnState.OPEN)] ∧
    index_by_fd srv_f 5 = 1 ∧
    received_long.rd = ReadResult.bytes msg_long ∧ msg_long.length = 75 ∧
    cstr (msg_long ++ List.replicate 5 NUL) SIZEOF_INT = some long_name ∧
    received_long.dns.gethostbyname long_name = some ⟨127, 0, 0, 1⟩ ∧
    (long_name ++ " 127.0.0.1\n".toList).length + 1 = 82 ∧ OUT_BUF_SIZE = 80 ∧
    ip_by_name received_long.dns 1 0 { srv_f with buf := msg_long ++ List.replicate 5 NUL } =
      none ∧
    conn_data_handler P0 5 received_long srv_f = none :=
  ⟨by decide, by decide, by decide, rfl, by decide, by decide, by decide, by decide, by decide,
   by decide, by decide⟩

/-- A read that fills the 80 bytes of `buf` with the tag of `IP_BY_NAME` and
76 letters, no NUL among them: `strlen` and `%s` run off the end of the
array, and the call has undefined behaviour. -/
theorem unterminated_read_undefined :
    (msg_short ++ List.replicate 75 'a').length = IN_BUF_SIZE ∧
    cstr (msg_short ++ List.replicate 75 'a') SIZEOF_INT = none ∧
    conn_data_handler P0 5 (received (ReadResult.bytes (msg_short ++ List.replicate 75 'a')) true)
      srv_f = none := by
  decide

/-- C14. Invalid-slot close: for an index that is negative, not below
`MAX_CONNS`, or whose slot is CLOSED, `terminate` leaves every slot and
`total_conns` unchanged, and its only effect is one message on stderr: no
descriptor is closed. -/
theorem terminate_invalid_slot (i : Int) (ok : Bool) (s : Server)
    (h : i < 0 ∨ i ≥ (MAX_CONNS s : Int) ∨
      ∃ c, s.all_conns[i.toNat]? = some c ∧ c.state = ConnState.CLOSED) :
    (terminate i ok s).all_conns = s.all_conns ∧
    (terminate i ok s).total_conns = s.total_conns ∧
    (terminate i ok s).buf = s.buf ∧
    ((terminate i ok s).trace =
        s.trace ++ [Effect.report "terminate: conn_index %d out of range.\n" [i]] ∨
      (terminate i ok s).trace =
        s.trace ++ [Effect.report "terminate: connection %d already closed.\n" [i]]) := by
  unfold terminate
  by_cases hrange : i < 0 ∨ i ≥ (MAX_CONNS s : Int)
  · simp [hrange, Server.emit]
  · rcases h with h | h | ⟨c, hc, hclosed⟩
    · exact absurd (Or.inl h) hrange
    · exact absurd (Or.inr h) hrange
    · simp [hrange, hc, hclosed, Server.emit]

/-- Witness of C14: slot 0 of `srv_a` is CLOSED, and index 7 is out of
range. -/
theorem terminate_invalid_slot_witness :
    ((terminate 0 true srv_a).all_conns = srv_a.all_conns ∧
      (terminate 0 true srv_a).total_conns = srv_a.total_conns ∧
      (terminate 0 true srv_a).buf = srv_a.buf ∧
      ((terminate 0 true srv_a).trace =
          srv_a.trace ++ [Effect.report "terminate: conn_index %d out of range.\n" [0]] ∨
        (terminate 0 true srv_a).trace =
          srv_a.trace ++ [Effect.report "terminate: connection %d already closed.\n" [0]])) ∧
    (terminate 7 true srv_a).all_conns = srv_a.all_conns :=
  ⟨terminate_invalid_slot 0 true srv_a
      (Or.inr (Or.inr ⟨slot 4 ConnState.CLOSED, by decide, rfl⟩)),
   (terminate_invalid_slot 7 true srv_a (Or.inr (Or.inl (by decide)))).1⟩

/-! ## Startup exit codes -/

/-- C15, as stated, fails: a missing argument and a failed `socket` call both
exit with status 1, and an argument for which `atoi` returns 0 and a failed
`setsockopt` call both exit with status 2. -/
theorem exit_status_collisions :
    exit_status FailureClass.missing_argument = some 1 ∧
    exit_status (FailureClass.setup SetupStep.socket) = some 1 ∧
    exit_status FailureClass.non_numeric_argument = some 2 ∧
    exit_status (FailureClass.setup SetupStep.setsockopt) = some 2 ∧
    ¬ (∀ c1 c2, exit_status c1 = exit_status c2 → c1 = c2) := by
  refine ⟨by decide, by decide, by decide, by decide, ?_⟩
  intro h
  have := h FailureClass.missing_argument (FailureClass.setup SetupStep.socket) (by decide)
  exact absurd this (by decide)

/-- C15, amended. Every startup exit has a non-zero status; the seven
socket-setup steps have pairwise different statuses (1, 2, 3, 4, 5, 8, 10)
and the two argument failures have different statuses (1, 2); the only two
classes that share a status are a missing argument with a failed `socket`
(status 1) and a non-numeric argument with a failed `setsockopt`
(status 2). -/
theorem exit_status_classes :
    (∀ (arg : Option Int) (ok : SetupStep → Bool) (e : Nat),
      main_startup arg ok = some e → e ≠ 0) ∧
    (∀ c, ∃ e, exit_status c = some e ∧ e ≠ 0) ∧
    (∀ a b : SetupStep,
      exit_status (FailureClass.setup a) = exit_status (FailureClass.setup b) → a = b) ∧
    exit_status FailureClass.missing_argument ≠
      exit_status FailureClass.non_numeric_argument ∧
    (∀ c1 c2, exit_status c1 = exit_status c2 → c1 ≠ c2 →
      (c1 = FailureClass.missing_argument ∧ c2 = FailureClass.setup SetupStep.socket) ∨
      (c1 = FailureClass.setup SetupStep.socket ∧ c2 = FailureClass.missing_argument) ∨
      (c1 = FailureClass.non_numeric_argument ∧
        c2 = FailureClass.setup SetupStep.setsockopt) ∨
      (c1 = FailureClass.setup SetupStep.setsockopt ∧
        c2 = FailureClass.non_numeric_argument)) := by
  refine ⟨?_, ?_, ?_, by decide, ?_⟩
  · intro arg ok e h
    cases arg with
    | none =>
      simp [main_startup] at h
      omega
    | some port =>
      simp only [main_startup, init_conn_sock] at h
      split_ifs at h <;> simp at h <;> omega
  · intro c
    cases c with
    | missing_argument => exact ⟨1, by decide, by decide⟩
    | non_numeric_argument => exact ⟨2, by decide, by decide⟩
    | setup step => cases step <;> exact ⟨_, rfl, by decide⟩
  · intro a b
    cases a <;> cases b <;> decide
  · intro c1 c2
    cases c1 with
    | missing_argument =>
      cases c2 with
      | missing_argument => decide
      | non_numeric_argument => decide
      | setup b => cases b <;> decide
    | non_numeric_argument =>
      cases c2 with
      | missing_argument => decide
      | non_numeric_argument => decide
      | setup b => cases b <;> decide
    | setup a =>
      cases c2 with
      | missing_argument => cases a <;> decide
      | non_numeric_argument => cases a <;> decide
      | setup b => cases a <;> cases b <;> decide

/-- Witness of C15 (amended): on a valid port with every step up to `bind`
succeeding and `bind` failing the status is 3; a missing argument and a
failed `socket` are one of the two listed pairs of classes with the same
status. -/
theorem exit_status_classes_witness :
    main_startup (some 4000) (fun t => decide (t ≠ SetupStep.bind)) = some 3 ∧
    (3 : Nat) ≠ 0 ∧
    ((FailureClass.missing_argument = FailureClass.missing_argument ∧
        FailureClass.setup SetupStep.socket = FailureClass.setup SetupStep.socket) ∨
      (FailureClass.missing_argument = FailureClass.setup SetupStep.socket ∧
        FailureClass.setup SetupStep.socket = FailureClass.missing_argument) ∨
      (FailureClass.missing_argument = FailureClass.non_numeric_argument ∧
        FailureClass.setup SetupStep.socket = FailureClass.setup SetupStep.setsockopt) ∨
      (FailureClass.missing_argument = FailureClass.setup SetupStep.setsockopt ∧
        FailureClass.setup SetupStep.socket = FailureClass.non_numeric_argument)) :=
  ⟨by decide,
   exit_status_classes.1 (some 4000) (fun t => decide (t ≠ SetupStep.bind)) 3 (by decide),
   exit_status_classes.2.2.2.2 FailureClass.missing_argument
     (FailureClass.setup SetupStep.socket) (by decide) (by decide)⟩

/-! ## Ownership of the event nodes -/

/-- C16. Exclusive node ownership: in every state reached by enqueues and
dequeues from the empty queue and empty free pool, the nodes reachable from
`queue_head` and those reachable from `stack_head` form two chains that end
in `NULL`, no node is in both, neither chain holds a node twice, and when the
queue is not empty `queue_tail` is the last node of the live chain. -/
theorem exclusive_ownership (ops : List QueueOp) (s : QueueState)
    (h : run_queue ops init_queue = some s) :
    Chain s.heap (live_nodes s) s.queue_head ∧
    Chain s.heap (free_nodes s) s.stack_head ∧
    (∀ a, a ∈ live_nodes s → a ∉ free_nodes s) ∧
    (live_nodes s).Nodup ∧ (free_nodes s).Nodup ∧
    (s.queue_head ≠ none →
      s.queue_tail ≠ none ∧ s.queue_tail = (live_nodes s).getLast?) := by
  obtain ⟨q, evs, p, hinv⟩ := reachable_queue_ok h
  rw [live_nodes_eq hinv, free_nodes_eq hinv]
  have hnd := List.nodup_append.mp hinv.nodup
  refine ⟨hinv.live, hinv.free, fun a ha hp => hnd.2.2 ha hp, hnd.1, hnd.2.1, ?_⟩
  intro hne
  have hq : q ≠ [] := by
    intro hq
    subst hq
    exact hne hinv.live
  have ht := hinv.tail hq
  refine ⟨?_, ht⟩
  rw [ht]
  cases q with
  | nil => exact absurd rfl hq
  | cons a q1 =>
    rw [List.getLast?_eq_getLast _ (by simp)]
    simp

/-- Witness of C16: after `ops_e` two nodes are live and one is free. -/
theorem exclusive_ownership_witness :
    run_queue ops_e init_queue = some queue_e ∧
    live_nodes queue_e = [1, 2] ∧ free_nodes queue_e = [0] ∧
    Chain queue_e.heap (live_nodes queue_e) queue_e.queue_head ∧
    Chain queue_e.heap (free_nodes queue_e) queue_e.stack_head ∧
    (∀ a, a ∈ live_nodes queue_e → a ∉ free_nodes queue_e) ∧
    (live_nodes queue_e).Nodup ∧ (free_nodes queue_e).Nodup ∧
    (queue_e.queue_head ≠ none →
      queue_e.queue_tail ≠ none ∧ queue_e.queue_tail = (live_nodes queue_e).getLast?) :=
  ⟨by decide, by decide, by decide, exclusive_ownership ops_e queue_e (by decide)⟩

/-! ## Lemmas on the parser -/

theorem name_by_ip_advance {P : Params} {R : Resolver} {i off n : Nat} {s s1 : Server}
    (h : name_by_ip P R i off s = some (n, s1)) :
    ∃ text, cstr s.buf (off + SIZEOF_INT) = some text ∧ n = SIZEOF_INT + text.length + 1 := by
  unfold name_by_ip at h
  cases hc : cstr s.buf (off + SIZEOF_INT) with
  | none => simp [hc] at h
  | some text =>
    refine ⟨text, rfl, ?_⟩
    simp only [hc] at h
    by_cases ha : inet_addr_long P R text = -1
    · simp [ha] at h
      exact h.1.symm
    · simp only [ha, if_false] at h
      split at h
      · simp at h
      · simp at h
        exact h.1.symm

theorem inet_addr_long_narrow {P : Params} {R : Resolver} {text : List Char}
    (hlong : P.SIZEOF_LONG * 8 ≤ 32) (hbad : R.inet_addr text = none) :
    inet_addr_long P R text = -1 := by
  have h1 : ¬ ((2 ^ 32 - 1 : Nat) < 2 ^ 31) := by norm_num
  have h2 : (((2 ^ 32 - 1 : Nat) : Int)) - 2 ^ 32 = -1 := by norm_num
  unfold inet_addr_long
  rw [hbad]
  unfold inet_addr_value long_of_uint32
  rw [if_pos hlong, if_neg h1]
  exact h2

/-- Where a `long` has more than 32 bits the value kept from `inet_addr` is
never -1, whatever the text: the malformed branch of `name_by_ip` is dead. -/
theorem inet_addr_long_wide {P : Params} (R : Resolver) (text : List Char)
    (hlong : ¬ P.SIZEOF_LONG * 8 ≤ 32) : inet_addr_long P R text ≠ -1 := by
  simp only [inet_addr_long, long_of_uint32, hlong, if_false]
  omega

theorem ip_by_name_advance {R : Resolver} {i off n : Nat} {s s1 : Server}
    (h : ip_by_name R i off s = some (n, s1)) :
    ∃ name, cstr s.buf (off + SIZEOF_INT) = some name ∧ n = SIZEOF_INT + name.length + 1 := by
  unfold ip_by_name at h
  cases hc : cstr s.buf (off + SIZEOF_INT) with
  | none => simp [hc] at h
  | some name =>
    refine ⟨name, rfl, ?_⟩
    simp only [hc] at h
    split at h
    · simp at h
    · simp at h
      exact h.1.symm

theorem parse_step_progress {P : Params} {R : Resolver} {i bi bi1 : Nat} {s s1 : Server}
    (h : parse_step P R i bi s = some (bi1, s1)) : bi < bi1 := by
  unfold parse_step at h
  cases hr : read_int P s.buf bi with
  | none => simp [hr] at h
  | some t =>
    simp only [hr] at h
    by_cases h1 : t = P.NAMEBYIP
    · simp only [h1, if_true] at h
      cases hn : name_by_ip P R i bi s with
      | none => simp [hn] at h
      | some r =>
        obtain ⟨n, s2⟩ := r
        simp [hn] at h
        obtain ⟨text, -, hlen⟩ := name_by_ip_advance hn
        omega
    · simp only [h1, if_false] at h
      by_cases h2 : t = P.IPBYNAME
      · simp only [h2, if_true] at h
        cases hn : ip_by_name R i bi s with
        | none => simp [hn] at h
        | some r =>
          obtain ⟨n, s2⟩ := r
          simp [hn] at h
          obtain ⟨name, -, hlen⟩ := ip_by_name_advance hn
          omega
      · simp [h2] at h
        omega

theorem parse_loop_eq_steps (P : Params) (R : Resolver) (i nb : Nat) (fuel : Nat) :
    ∀ (bi : Nat) (s : Server),
      parse_loop P R i nb fuel bi s = (parse_steps P R i nb fuel bi s).result := by
  induction fuel with
  | zero =>
    intro bi s
    unfold parse_loop parse_steps
    by_cases hlt : bi < nb <;> simp [hlt, ParseOutcome.result]
  | succ fuel ih =>
    intro bi s
    unfold parse_loop parse_steps parse_step
    by_cases hlt : bi < nb
    · simp only [hlt, if_true]
      cases hr : read_int P s.buf bi with
      | none => simp [ParseOutcome.result]
      | some t =>
        simp only []
        by_cases h1 : t = P.NAMEBYIP
        · simp only [h1, if_true]
          cases hn : name_by_ip P R i bi s with
          | none => simp [ParseOutcome.result]
          | some r =>
            obtain ⟨n, s2⟩ := r
            simp only [ih]
        · simp only [h1, if_false]
          by_cases h2 : t = P.IPBYNAME
          · simp only [h2, if_true]
            cases hn : ip_by_name R i bi s with
            | none => simp [ParseOutcome.result]
            | some r =>
              obtain ⟨n, s2⟩ := r
              simp only [ih]
          · simp only [h2, if_false, ih]
    · simp [hlt, ParseOutcome.result]

theorem parse_steps_fuel (P : Params) (R : Resolver) (i nb : Nat) (fuel : Nat) :
    ∀ (bi : Nat) (s : Server), nb ≤ bi + fuel →
      parse_steps P R i nb fuel bi s ≠ ParseOutcome.out_of_fuel := by
  induction fuel with
  | zero =>
    intro bi s h
    unfold parse_steps
    have hlt : ¬ bi < nb := by omega
    simp [hlt]
  | succ fuel ih =>
    intro bi s h
    unfold parse_steps
    by_cases hlt : bi < nb
    · simp only [hlt, if_true]
      cases hp : parse_step P R i bi s with
      | none => simp
      | some r =>
        obtain ⟨bi1, s1⟩ := r
        have := parse_step_progress hp
        exact ih bi1 s1 (by omega)
    · simp [hlt]

/-! ## Theorems on the parser -/

/-- Malformed address skip where a `long` has 32 bits: for a `NAME_BY_IP`
message at offset `off` whose NUL-terminated payload `text` is rejected by
`inet_addr`, `name_by_ip` writes nothing, looks nothing up, leaves the globals
unchanged and returns header size + payload length + 1; the parser iteration
moves the cursor by that amount, which is also what `name_by_ip` returns for
this payload under any other resolver answer. -/
theorem malformed_address_skip (P : Params) (R : Resolver) (s : Server) (i off : Nat)
    (text : List Char) (hname : cstr s.buf (off + SIZEOF_INT) = some text)
    (hlong : P.SIZEOF_LONG * 8 ≤ 32) (hbad : R.inet_addr text = none) :
    name_by_ip P R i off s = some (SIZEOF_INT + text.length + 1, s) ∧
    (read_int P s.buf off = some P.NAMEBYIP →
      parse_step P R i off s = some (off + (SIZEOF_INT + text.length + 1), s)) ∧
    (∀ (R2 : Resolver) (n : Nat) (s2 : Server),
      name_by_ip P R2 i off s = some (n, s2) → n = SIZEOF_INT + text.length + 1) := by
  have h1 : name_by_ip P R i off s = some (SIZEOF_INT + text.length + 1, s) := by
    simp [name_by_ip, hname, inet_addr_long_narrow hlong hbad]
  refine ⟨h1, ?_, ?_⟩
  · intro ht
    simp [parse_step, ht, h1]
  · intro R2 n s2 h2
    obtain ⟨text2, hc, hn⟩ := name_by_ip_advance h2
    rw [hname] at hc
    cases hc
    exact hn

/-- The request `NAME_BY_IP("not-an-address")` where a `long` has 32 bits. -/
theorem malformed_address_skip_example :
    name_by_ip P0 dns0 0 0 srv_bad =
      some (SIZEOF_INT + "not-an-address".toList.length + 1, srv_bad) ∧
    (read_int P0 srv_bad.buf 0 = some P0.NAMEBYIP →
      parse_step P0 dns0 0 0 srv_bad =
        some (0 + (SIZEOF_INT + "not-an-address".toList.length + 1), srv_bad)) ∧
    (∀ (R2 : Resolver) (n : Nat) (s2 : Server),
      name_by_ip P0 R2 0 0 srv_bad = some (n, s2) →
        n = SIZEOF_INT + "not-an-address".toList.length + 1) :=
  malformed_address_skip P0 dns0 srv_bad 0 0 "not-an-address".toList (by decide) (by decide)
    (by decide)

/-- Where a `long` has more than 32 bits, `name_by_ip` never skips: whenever
it returns, whatever `inet_addr` said about the payload, it has called
`gethostbyaddr` and written a line to the connection. -/
theorem wide_long_never_skips (P : Params) (R : Resolver) (s s1 : Server) (i off n : Nat)
    (text : List Char) (hname : cstr s.buf (off + SIZEOF_INT) = some text)
    (hlong : ¬ P.SIZEOF_LONG * 8 ≤ 32) (h : name_by_ip P R i off s = some (n, s1)) :
    ∃ c, s.all_conns[i]? = some c ∧
      s1.trace = s.trace ++ [Effect.gethostbyaddr (addr_query R text),
        Effect.write c.fd (name_line P R text)] := by
  have ha := inet_addr_long_wide R text hlong
  unfold name_by_ip at h
  simp only [hname, ha, if_false] at h
  unfold respond at h
  split at h
  · simp at h
  · rename_i s2 hs2
    split at hs2
    · split at hs2
      · rename_i c hc
        simp at hs2 h
        refine ⟨c, hc, ?_⟩
        rw [← h.2, ← hs2]
        simp [Server.emit, name_line]
      · simp at hs2
    · simp at hs2

/-- C12. The failing input: the request `NAME_BY_IP("not-an-address")` on a
machine whose `long` has eight bytes.  `inet_addr` returns its error value,
all 32 bits set; kept in the `long addr` it is 4294967295, not -1, so the
test for a malformed address fails: `name_by_ip` calls `gethostbyaddr` and
writes the line `not-an-address 0`, where a lookup and a write must not
happen.  (With a `long` of four bytes the same request is skipped.) -/
theorem malformed_address_answered :
    P64.SIZEOF_LONG = 8 ∧
    cstr srv_bad.buf SIZEOF_INT = some "not-an-address".toList ∧
    dns0.inet_addr "not-an-address".toList = none ∧
    inet_addr_long P64 dns0 "not-an-address".toList = 4294967295 ∧
    name_by_ip P64 dns0 0 0 srv_bad = some (19,
      { srv_bad with trace := srv_bad.trace ++
          [Effect.gethostbyaddr ⟨255, 255, 255, 255⟩,
           Effect.write 5 "not-an-address 0\n".toList] }) ∧
    (conn_data_handler P64 5 (received (ReadResult.bytes msg_bad) true) srv_b).map
        (fun s => writes s.trace) = some [(5, "not-an-address 0\n".toList)] ∧
    name_by_ip P0 dns0 0 0 srv_bad = some (19, srv_bad) := by
  decide

/-- C19. Parse loop termination: for every buffer and every byte count `n`,
the loop of `conn_data_handler`, started at cursor 0, ends within `n`
iterations (normally, or in an iteration with undefined behaviour), because
every iteration that completes moves the cursor forward by at least one;
the loop of `conn_data_handler` is this loop. -/
theorem parse_loop_terminates (P : Params) (R : Resolver) (i n : Nat) (s : Server) :
    parse_steps P R i n n 0 s ≠ ParseOutcome.out_of_fuel ∧
    (∀ (bi : Nat) (s0 : Server) (bi1 : Nat) (s1 : Server),
      parse_step P R i bi s0 = some (bi1, s1) → bi < bi1) ∧
    parse_loop P R i n n 0 s = (parse_steps P R i n n 0 s).result :=
  ⟨parse_steps_fuel P R i n n 0 s (by omega),
   fun _ _ _ _ h => parse_step_progress h,
   parse_loop_eq_steps P R i n n 0 s⟩

/-- Witness of C19: the 19 bytes of `msg_bad` are parsed in one iteration,
which moves the cursor from 0 to 19. -/
theorem parse_loop_terminates_witness :
    parse_steps P0 dns0 0 19 19 0 srv_bad = ParseOutcome.done 19 srv_bad ∧
    parse_steps P0 dns0 0 19 19 0 srv_bad ≠ ParseOutcome.out_of_fuel ∧
    0 < 19 :=
  ⟨by decide,
   (parse_loop_terminates P0 dns0 0 19 srv_bad).1,
   (parse_loop_terminates P0 dns0 0 19 srv_bad).2.1 0 srv_bad 19 srv_bad (by decide)⟩

/-- The response of `name_by_ip` when the value kept from `inet_addr` is not
-1 and the line fits in `out_buf`: one lookup and one write of the address, a
space, the host name or `0`, and a newline; the cursor advance is header size
+ address length + 1. -/
theorem name_by_ip_response (P : Params) (R : Resolver) (s : Server) (i off : Nat)
    (text : List Char) (c : connection) (hname : cstr s.buf (off + SIZEOF_INT) = some text)
    (haddr : inet_addr_long P R text ≠ -1) (hc : s.all_conns[i]? = some c)
    (hfit : (name_line P R text).length + 1 ≤ OUT_BUF_SIZE) :
    name_by_ip P R i off s = some (SIZEOF_INT + text.length + 1,
      { s with trace := s.trace ++ [Effect.gethostbyaddr (addr_query R text),
          Effect.write c.fd (name_line P R text)] }) := by
  unfold name_by_ip
  unfold name_line at hfit ⊢
  simp only [List.append_assoc, List.singleton_append, List.nil_append,
    List.cons_append] at hfit
  simp only [hname, haddr, if_false, respond, Server.emit, hc, List.append_assoc,
    List.singleton_append, List.nil_append, List.cons_append, if_pos hfit]

/-- The request `NAME_BY_IP("127.0.0.1")` with a resolver that maps 127.0.0.1
to `localhost` is answered by the line `127.0.0.1 localhost`. -/
theorem name_by_ip_localhost :
    (name_by_ip P0 dns0 0 0 srv_rev).map (fun r => (r.1, r.2.trace.drop 1)) =
    some (14, [Effect.gethostbyaddr ⟨127, 0, 0, 1⟩,
      Effect.write 5 "127.0.0.1 localhost\n".toList]) := by
  decide

/-- C11. The failing input: the request `NAME_BY_IP("127.0.0.1")` with a
resolver that maps 127.0.0.1 to the 70-character name `long_name`.  The
response line and its NUL take 82 bytes, `sprintf` writes them into the
80-byte `out_buf` of `name_by_ip`: the call has undefined behaviour instead
of writing the line. -/
theorem long_host_overflows_out_buf :
    cstr srv_rev.buf SIZEOF_INT = some "127.0.0.1".toList ∧
    dns_rev_long.inet_addr "127.0.0.1".toList = some ⟨127, 0, 0, 1⟩ ∧
    dns_rev_long.gethostbyaddr ⟨127, 0, 0, 1⟩ = some long_name ∧
    ("127.0.0.1".toList ++ [' '] ++ long_name ++ ['\n']).length + 1 = 82 ∧
    srv_rev.all_conns[0]? = some (slot 5 ConnState.OPEN) ∧
    name_by_ip P0 dns_rev_long 0 0 srv_rev = none ∧
    conn_data_handler P0 5 received_rev srv_b = none := by
  decide

/-- Two requests read back-to-back, `IP_BY_NAME("localhost")` and
`NAME_BY_IP("127.0.0.1")`, are answered in order when the lines fit. -/
theorem framing_two_messages :
    (conn_data_handler P0 5 (received (ReadResult.bytes msg_two) true) srv_b).map
        (fun s => writes s.trace) =
      some [(5, "localhost 127.0.0.1\n".toList), (5, "127.0.0.1 localhost\n".toList)] ∧
    parse_steps P0 dns0 0 28 28 0 { srv_b with buf := msg_two ++ List.replicate 52 NUL } =
      ParseOutcome.done 28
        { srv_b with
          buf := msg_two ++ List.replicate 52 NUL
          trace := srv_b.trace ++
            [Effect.gethostbyname "localhost".toList,
             Effect.write 5 "localhost 127.0.0.1\n".toList,
             Effect.gethostbyaddr ⟨127, 0, 0, 1⟩,
             Effect.write 5 "127.0.0.1 localhost\n".toList] } := by
  decide

/-- C17. The failing input: a read of 28 bytes that consists of the two
complete requests `IP_BY_NAME("localhost")` and `NAME_BY_IP("127.0.0.1")`,
with a resolver that maps 127.0.0.1 to the 70-character name `long_name`.
The first request is answered and the cursor moves to 14; in the second,
`sprintf` overflows `out_buf`: the loop does not reach cursor 28. -/
theorem framing_stops_at_overflow :
    msg_two.length = 28 ∧
    parse_step P0 dns_rev_long 0 0 { srv_b with buf := msg_two ++ List.replicate 52 NUL } =
      some (14,
        { srv_b with
          buf := msg_two ++ List.replicate 52 NUL
          trace := srv_b.trace ++ [Effect.gethostbyname "localhost".toList,
            Effect.write 5 "localhost 127.0.0.1\n".toList] }) ∧
    parse_steps P0 dns_rev_long 0 28 28 0
      { srv_b with buf := msg_two ++ List.replicate 52 NUL } = ParseOutcome.undefined ∧
    conn_data_handler P0 5 received_two srv_b = none := by
  decide

/-- C20. The failing input: descriptors 4 and 5 are OPEN; `read` on
descriptor 5 returns the five bytes of `msg_short` (an `IP_BY_NAME` tag and
the letter `a`, no NUL).  In one run the static buffer is still zeroed, in
the other it holds the request `IP_BY_NAME("secret.example")` read earlier
from descriptor 4.  The tables are equal and the buffers agree on the five
bytes read, but the lines written to descriptor 5 differ: the second run
looks up and echoes `aecret.example`, bytes left by the other connection. -/
theorem stale_bytes_change_writes :
    run P0 calls_f (init_server 2) = some srv_f ∧
    conn_data_handler P0 4 (received (ReadResult.bytes msg_secret) true) srv_f = some srv_g ∧
    srv_g.all_conns = srv_f.all_conns ∧ srv_g.total_conns = srv_f.total_conns ∧
    (msg_short ++ srv_f.buf.drop 5).take 5 = (msg_short ++ srv_g.buf.drop 5).take 5 ∧
    conn_data_handler P0 5 (received (ReadResult.bytes msg_short) true) srv_f = some
      { srv_f with
        buf := msg_short ++ srv_f.buf.drop 5
        trace := srv_f.trace ++ [Effect.gethostbyname "a".toList,
          Effect.write 5 "a 0\n".toList] } ∧
    conn_data_handler P0 5 (received (ReadResult.bytes msg_short) true) srv_g = some
      { srv_g with
        buf := msg_short ++ srv_g.buf.drop 5
        trace := srv_g.trace ++ [Effect.gethostbyname "aecret.example".toList,
          Effect.write 5 "aecret.example 0\n".toList] } := by
  decide

/-! ## Framing of back-to-back requests -/

theorem cstr_payload (pre tag payload more : List Char) (htag : tag.length = SIZEOF_INT)
    (hnul : NUL ∉ payload) :
    cstr (pre ++ (tag ++ payload ++ [NUL] ++ more)) (pre.length + SIZEOF_INT) = some payload := by
  have hdrop : (pre ++ (tag ++ payload ++ [NUL] ++ more)).drop (pre.length + SIZEOF_INT) =
      payload ++ (NUL :: more) := by
    have hlen : (pre ++ tag).length = pre.length + SIZEOF_INT := by simp [htag]
    have hre : pre ++ (tag ++ payload ++ [NUL] ++ more) =
        (pre ++ tag) ++ (payload ++ (NUL :: more)) := by simp
    rw [hre]
    exact List.drop_left' hlen
  unfold cstr
  rw [hdrop]
  have hmem : NUL ∈ payload ++ (NUL :: more) := by simp
  rw [if_pos hmem]
  congr 1
  have hall : ∀ a ∈ payload, (fun c => c != NUL) a = true := by
    intro a ha
    have hne : a ≠ NUL := fun h => hnul (h ▸ ha)
    simpa using hne
  rw [List.takeWhile_append_of_pos hall]
  simp

theorem read_int_tag (P : Params) (pre tag rest : List Char) (htag : tag.length = SIZEOF_INT) :
    read_int P (pre ++ (tag ++ rest)) pre.length = some (int_of_bytes P.big_endian tag) := by
  unfold read_int
  have hle : pre.length + SIZEOF_INT ≤ (pre ++ (tag ++ rest)).length := by
    simp [htag]
  rw [if_pos hle, List.drop_left, List.take_left' htag]

theorem parse_step_message (P : Params) (R : Resolver) (s : Server) (i : Nat) (c : connection)
    (pre more : List Char) (m : Message) (hbuf : s.buf = pre ++ (m.bytes ++ more))
    (hc : s.all_conns[i]? = some c) (hok : m.ok P R) :
    parse_step P R i pre.length s = some (pre.length + m.bytes.length,
      { s with trace := s.trace ++ m.effects P R c.fd }) := by
  obtain ⟨htag, hnul, hknown, hfitn, hfiti⟩ := hok
  have hread : read_int P s.buf pre.length = some (int_of_bytes P.big_endian m.tag) := by
    rw [hbuf]
    have : m.bytes ++ more = m.tag ++ (m.payload ++ [NUL] ++ more) := by simp [Message.bytes]
    rw [this]
    exact read_int_tag P pre m.tag _ htag
  have hcstr : cstr s.buf (pre.length + SIZEOF_INT) = some m.payload := by
    rw [hbuf]
    have : m.bytes ++ more = m.tag ++ m.payload ++ [NUL] ++ more := by simp [Message.bytes]
    rw [this]
    exact cstr_payload pre m.tag m.payload more htag hnul
  have hlen : m.bytes.length = SIZEOF_INT + m.payload.length + 1 := by
    simp [Message.bytes, htag]
    omega
  unfold parse_step
  simp only [hread]
  by_cases h1 : int_of_bytes P.big_endian m.tag = P.NAMEBYIP
  · simp only [h1, if_true]
    by_cases ha : inet_addr_long P R m.payload = -1
    · have hn : name_by_ip P R i pre.length s =
          some (SIZEOF_INT + m.payload.length + 1, s) := by
        simp [name_by_ip, hcstr, ha]
      simp [hn, hlen, Message.effects, h1, ha]
    · have hn := name_by_ip_response P R s i pre.length m.payload c hcstr ha hc
        (hfitn h1 ha)
      simp only [hn, hlen, Message.effects, h1, if_true, ha, if_false]
  · have h2 : int_of_bytes P.big_endian m.tag = P.IPBYNAME := by
      rcases hknown with h | h
      · exact absurd h h1
      · exact h
    have hfit := hfiti h1
    have hn : ip_by_name R i pre.length s = some (SIZEOF_INT + m.payload.length + 1,
        { s with trace := s.trace ++ [Effect.gethostbyname m.payload,
            Effect.write c.fd (ip_line R m.payload)] }) := by
      unfold ip_by_name
      unfold ip_line at hfit
      simp only [List.append_assoc, List.singleton_append, List.nil_append,
        List.cons_append] at hfit
      simp only [hcstr, respond, Server.emit, hc, List.append_assoc, List.singleton_append,
        List.nil_append, List.cons_append, if_pos hfit, ip_line]
    have hne : ¬ P.IPBYNAME = P.NAMEBYIP := fun h => h1 (h2.trans h)
    simp only [h2, hne, if_false, if_true, hn, hlen, Message.effects]

theorem wire_length_ge (P : Params) (R : Resolver) :
    ∀ (msgs : List Message), (∀ m ∈ msgs, m.ok P R) → msgs.length ≤ (wire msgs).length := by
  intro msgs
  induction msgs with
  | nil => intro _; simp
  | cons m ms ih =>
    intro h
    have hm := (h m (by simp)).1
    have := ih (fun x hx => h x (List.mem_cons_of_mem _ hx))
    simp [wire, Message.bytes, hm] at this ⊢
    omega

theorem framing_steps (P : Params) (R : Resolver) (i : Nat) (c : connection) :
    ∀ (msgs : List Message) (pre more : List Char) (s : Server) (fuel : Nat),
      s.buf = pre ++ (wire msgs ++ more) → s.all_conns[i]? = some c →
      (∀ m ∈ msgs, m.ok P R) → msgs.length ≤ fuel →
      parse_steps P R i (pre.length + (wire msgs).length) fuel pre.length s =
        ParseOutcome.done (pre.length + (wire msgs).length)
          { s with trace := s.trace ++ expected_effects P R c.fd msgs } := by
  intro msgs
  induction msgs with
  | nil =>
    intro pre more s fuel _ _ _ _
    cases fuel <;> simp [parse_steps, wire, expected_effects]
  | cons m ms ih =>
    intro pre more s fuel hbuf hc hok hfuel
    cases fuel with
    | zero => simp at hfuel
    | succ fuel =>
      have hm := hok m (by simp)
      have hmlen : 0 < m.bytes.length := by simp [Message.bytes]
      have hbuf1 : s.buf = pre ++ (m.bytes ++ (wire ms ++ more)) := by
        rw [hbuf]; simp [wire]
      have hstep := parse_step_message P R s i c pre (wire ms ++ more) m hbuf1 hc hm
      have hlt : pre.length < pre.length + (wire (m :: ms)).length := by
        simp [wire]; omega
      rw [parse_steps]
      simp only [hlt, if_true, hstep]
      have hrec := ih (pre ++ m.bytes) more
        { s with trace := s.trace ++ m.effects P R c.fd } fuel
        (by rw [hbuf1]; simp) hc (fun x hx => hok x (List.mem_cons_of_mem _ hx))
        (by simpa using hfuel)
      have e1 : (pre ++ m.bytes).length + (wire ms).length =
          pre.length + (wire (m :: ms)).length := by
        simp [wire]; omega
      have e2 : (pre ++ m.bytes).length = pre.length + m.bytes.length := by simp
      rw [e1, e2] at hrec
      rw [hrec]
      simp [expected_effects]

/-- Back-to-back framing when the responses fit: a read that consists of
complete requests with known tags, on the connection in slot `i`, is parsed
request by request; each iteration moves the cursor by the length of its
request (header size + payload length + 1), the effects are those of the
requests in order, and the loop stops with the cursor at the number of bytes
read. -/
theorem framing (P : Params) (R : Resolver) (i : Nat) (c : connection) (s : Server)
    (msgs : List Message) (more : List Char)
    (hbuf : s.buf = wire msgs ++ more) (hc : s.all_conns[i]? = some c)
    (hok : ∀ m ∈ msgs, m.ok P R) :
    parse_steps P R i (wire msgs).length (wire msgs).length 0 s =
      ParseOutcome.done (wire msgs).length
        { s with trace := s.trace ++ expected_effects P R c.fd msgs } ∧
    parse_loop P R i (wire msgs).length (wire msgs).length 0 s =
      some { s with trace := s.trace ++ expected_effects P R c.fd msgs } := by
  have h := framing_steps P R i c msgs [] more s (wire msgs).length (by simpa using hbuf) hc hok
    (wire_length_ge P R msgs hok)
  simp only [List.length_nil, Nat.zero_add] at h
  refine ⟨h, ?_⟩
  rw [parse_loop_eq_steps, h]
  rfl

/-- The two requests of `msg_two` satisfy the conditions of `framing` with
the resolver `dns0`: the loop handles both and stops at cursor 28. -/
theorem framing_example :
    wire msgs_two = msg_two ∧
    parse_steps P0 dns0 0 (wire msgs_two).length (wire msgs_two).length 0
        { srv_b with buf := msg_two ++ List.replicate 52 NUL } =
      ParseOutcome.done (wire msgs_two).length
        { srv_b with
          buf := msg_two ++ List.replicate 52 NUL
          trace := srv_b.trace ++ expected_effects P0 dns0 5 msgs_two } := by
  refine ⟨by decide, ?_⟩
  have hok : ∀ m ∈ msgs_two, m.ok P0 dns0 := by
    intro m hm
    simp only [msgs_two, List.mem_cons, List.mem_singleton, List.not_mem_nil, or_false] at hm
    rcases hm with rfl | rfl
    · exact ⟨by decide, by decide, by decide, fun h => absurd h (by decide), fun _ => by decide⟩
    · refine ⟨by decide, by decide, by decide, ?_, fun h => absurd (by decide) h⟩
      intro _ _
      decide
  exact (framing P0 dns0 0 (slot 5 ConnState.OPEN)
    { srv_b with buf := msg_two ++ List.replicate 52 NUL } msgs_two (List.replicate 52 NUL)
    (by decide) (by decide) hok).1

/-- A data read that consists of complete requests with known tags whose
response lines fit in `out_buf`: `conn_data_handler` returns, the table and
the counter are unchanged, the bytes read are at the start of the static
buffer and the effects are those of the requests in order. -/
theorem data_read_framed (P : Params) (s : Server) (fd : Int) (o : Outcome) (c : connection)
    (msgs : List Message) (hidx : index_by_fd s fd ≠ -1)
    (hc : s.all_conns[(index_by_fd s fd).toNat]? = some c)
    (hrd : o.rd = ReadResult.bytes (wire msgs)) (hne : msgs ≠ [])
    (hlen : (wire msgs).length ≤ IN_BUF_SIZE) (hok : ∀ m ∈ msgs, m.ok P o.dns) :
    conn_data_handler P fd o s = some
      { s with
        buf := wire msgs ++ s.buf.drop (wire msgs).length
        trace := s.trace ++ expected_effects P o.dns c.fd msgs } := by
  have htake : (wire msgs).take IN_BUF_SIZE = wire msgs := List.take_of_length_le hlen
  have hpos : (wire msgs).length ≠ 0 := by
    have h1 := wire_length_ge P o.dns msgs hok
    have h2 : 0 < msgs.length := List.length_pos.mpr hne
    omega
  have hf := (framing P o.dns (index_by_fd s fd).toNat c
    { s with buf := wire msgs ++ s.buf.drop (wire msgs).length } msgs
    (s.buf.drop (wire msgs).length) rfl hc hok).2
  unfold conn_data_handler
  simp only [hidx, if_false, hrd, htake, hpos]
  exact hf

end AddrServer
